import Mathlib

set_option maxHeartbeats 1000000

/-!
Verification of the Xero ledger-master reconciliation actor
(`src/.actor/src/main.py`).

The development shallowly embeds the Python source: raw CSV rows become
association lists from header name to cell value, Python `decimal.Decimal`
values become an inductive type `PyDec` carrying an exact rational for finite
values plus the special values (infinities, quiet and signaling NaN) that the
`Decimal` string constructor can produce, and code paths that can raise an
uncaught exception are modelled with `Option` (`none` = the exception
propagates).
-/

namespace Xero

/-- A Raw Row: one CSV/JSON record, a mapping from header name to cell value
(a Python `dict`), modelled as an association list.  A key present with value
`None` in Python behaves identically to an absent key in every use the source
makes of a row (`row.get`, `col in row and norm(row[col]) != ""`), so cell
values are plain strings. -/
abbrev Row : Type := List (String × String)

/-- `row.get(k)`: the value stored under header `k`, if any. -/
def rowGet (r : Row) (k : String) : Option String :=
  match r with
  | [] => none
  | (k', v) :: t => if k' = k then some v else rowGet t k

/-- The whitespace characters stripped by Python's `str.strip()` and matched
by `\s` in the `decimal` module's parsing regex (restricted to ASCII). -/
def pyWs (c : Char) : Bool :=
  c == ' ' || c == '\t' || c == '\n' || c == '\r' || c == '\x0b' || c == '\x0c'

/-- Strip leading and trailing `pyWs` characters (Python `str.strip()`). -/
def trimChars (l : List Char) : List Char :=
  ((l.dropWhile pyWs).reverse.dropWhile pyWs).reverse

/-- `norm(value)`: `""` for absent/`None` input, else the trimmed string
(source `main.py` lines 13-17). -/
def norm (v : Option String) : String :=
  match v with
  | none => ""
  | some s => ⟨trimChars s.data⟩

/-- A Python `decimal.Decimal` value: a finite value as a signed integer
coefficient `m` and integer exponent `e` denoting `m * 10 ^ e` (Python's
own coefficient/exponent representation), an infinity, a quiet NaN or a
signaling NaN.  (NaN payload digits and the sign of zero are not
distinguished: a literal `-0` cell would render as `0.00` rather than
`-0.00`; no claim depends on either.) -/
inductive PyDec
  | fin (m : ℤ) (e : ℤ)
  | inf (neg : Bool)
  | nan
  | snan
deriving DecidableEq, Repr

/-- `10 ^ k` as an integer (kept in `ℕ` internally). -/
def pow10i (k : ℕ) : ℤ := ((10 : ℕ) ^ k : ℕ)

/-- The number of decimal digits of `n` (1 for `n = 0`); the first argument
is recursion fuel, always called with `n` itself, which bounds the digit
count. -/
def digitLen : ℕ → ℕ → ℕ
  | 0, _ => 1
  | fuel + 1, n => if n < 10 then 1 else digitLen fuel (n / 10) + 1

/-- `n / d` rounded to the nearest integer, ties to even
(`ROUND_HALF_EVEN` on a magnitude), for `d > 0`. -/
def halfEvenDiv (n d : ℕ) : ℕ :=
  let q := n / d
  let r := n % d
  if 2 * r < d then q
  else if d < 2 * r then q + 1
  else if q % 2 = 0 then q else q + 1

/-- `Decimal._fix` under the default context (`prec = 28`,
`Emax = 999999999`, `Emin = -999999999`, `rounding = ROUND_HALF_EVEN`):
round the exact result `M * 10 ^ e` to 28 significant digits (half-even),
rounding at `Etiny = Emin - prec + 1` instead when the value is subnormal,
and return `none` when the rounded result's adjusted exponent exceeds
`Emax` (the `Overflow` signal, trapped and raised by the default context).
`Underflow`/`Subnormal`/`Rounded`/`Inexact`/`Clamped` are untrapped and
value-preserving clamping is not modelled (the value determines every
output of this program). -/
def decFix (M : ℤ) (e : ℤ) : Option PyDec :=
  if M = 0 then some (.fin 0 e)
  else
    let L : ℤ := (digitLen M.natAbs M.natAbs : ℕ)
    let a := L - 1 + e
    let p0 := a - 27
    let p := if p0 ≤ -1000000026 then -1000000026 else p0
    if p ≤ e then
      if 999999999 < a then none else some (.fin M e)
    else
      let q := halfEvenDiv M.natAbs ((10 : ℕ) ^ (p - e).toNat)
      let M' : ℤ := if M < 0 then -(q : ℤ) else (q : ℤ)
      if M' = 0 then some (.fin 0 p)
      else
        let L' : ℤ := (digitLen M'.natAbs M'.natAbs : ℕ)
        let a' := L' - 1 + p
        if 999999999 < a' then none else some (.fin M' p)

/-- `Decimal` addition under the default context.  `none` models a signal
trapped and raised by Python's default context: `InvalidOperation` (any
signaling-NaN operand, or adding infinities of opposite sign) or `Overflow`
(via `decFix`).  A quiet NaN propagates quietly; a finite sum is computed
exactly and then rounded to the context's 28 significant digits by
`decFix`. -/
def padd : PyDec → PyDec → Option PyDec
  | .snan, _ => none
  | _, .snan => none
  | .nan, _ => some .nan
  | _, .nan => some .nan
  | .inf a, .inf b => if a = b then some (.inf a) else none
  | .inf a, .fin _ _ => some (.inf a)
  | .fin _ _, .inf b => some (.inf b)
  | .fin m1 e1, .fin m2 e2 =>
    let emin := if e1 ≤ e2 then e1 else e2
    decFix (m1 * pow10i (e1 - emin).toNat + m2 * pow10i (e2 - emin).toNat) emin

/-- The rational value of a digit string. -/
def digitsToNat (l : List Char) : Nat :=
  l.foldl (fun a c => 10 * a + (c.toNat - '0'.toNat)) 0

/-- `10 ^ e` for an integer exponent, as an exact rational. -/
def pow10 (e : Int) : ℚ :=
  if 0 ≤ e then (10 : ℚ) ^ e.toNat else 1 / (10 : ℚ) ^ (-e).toNat

/-- The `Infinity` / `NaN` / `sNaN` alternatives of the decimal
numeric-string grammar (case-insensitive, NaNs allow a digit payload). -/
def parseSpecial (neg : Bool) (cs : List Char) : Option PyDec :=
  let low := cs.map Char.toLower
  if low = "inf".data ∨ low = "infinity".data then some (.inf neg)
  else
    match low with
    | 'n' :: 'a' :: 'n' :: ds => if ds.all Char.isDigit then some .nan else none
    | 's' :: 'n' :: 'a' :: 'n' :: ds => if ds.all Char.isDigit then some .snan else none
    | _ => none

/-- The numeric alternative of the decimal numeric-string grammar:
`digits [. digits] [E [sign] digits]` with at least one digit in the
integer-or-fraction part. -/
def parseNumeric (neg : Bool) (cs : List Char) : Option PyDec :=
  let ipart := cs.takeWhile Char.isDigit
  let r1 := cs.dropWhile Char.isDigit
  let fr :=
    match r1 with
    | '.' :: t => (t.takeWhile Char.isDigit, t.dropWhile Char.isDigit)
    | _ => ([], r1)
  let fpart := fr.1
  let r2 := fr.2
  if ipart.length + fpart.length = 0 then none
  else
    let mant : ℤ := (digitsToNat (ipart ++ fpart) : ℤ)
    let signed : ℤ := if neg then -mant else mant
    match r2 with
    | [] => some (.fin signed (-(fpart.length : ℤ)))
    | e :: t =>
      if e = 'e' ∨ e = 'E' then
        let st :=
          match t with
          | '+' :: u => ((1 : ℤ), u)
          | '-' :: u => ((-1 : ℤ), u)
          | u => ((1 : ℤ), u)
        if st.2 ≠ [] ∧ st.2.all Char.isDigit then
          some (.fin signed (st.1 * (digitsToNat st.2 : ℤ) - (fpart.length : ℤ)))
        else none
      else none

/-- Parse a cleaned character sequence as a decimal numeric string:
optional sign, then a special value or a numeric literal. -/
def parseCore (cs : List Char) : Option PyDec :=
  match cs with
  | '+' :: t => (parseSpecial false t).orElse (fun _ => parseNumeric false t)
  | '-' :: t => (parseSpecial true t).orElse (fun _ => parseNumeric true t)
  | t => (parseSpecial false t).orElse (fun _ => parseNumeric false t)

/-- `Decimal(s)` on a string: per CPython's `_pydecimal`, the input is
stripped of leading/trailing whitespace and of all underscores before the
anchored grammar match; `none` models the `InvalidOperation` raised on a
conforming failure. -/
def parseDecimal (s : String) : Option PyDec :=
  parseCore (trimChars ((trimChars s.data).filter (· != '_')))

/-- Remove every `,` character: the source's `s.replace(",", "")`. -/
def stripCommas (s : String) : String :=
  ⟨s.data.filter (· != ',')⟩

/-- `safe_decimal(value)` (source lines 20-30): normalize, treat blanks as 0,
strip thousands separators, parse, and degrade to 0 when the parse
(`InvalidOperation`) fails. -/
def safe_decimal (v : Option String) : PyDec :=
  let s := norm v
  if s = "" then .fin 0 0
  else
    match parseDecimal (stripCommas s) with
    | some d => d
    | none => .fin 0 0

/-- `s.upper()` as a character map (ASCII case-folding, same as Lean's
`String.toUpper` but structurally reducible). -/
def strUpper (s : String) : String :=
  ⟨s.data.map Char.toUpper⟩

/-- `s.lower()` as a character map. -/
def strLower (s : String) : String :=
  ⟨s.data.map Char.toLower⟩

/-- Python's `a or b` on optional strings: the left value when it is truthy
(present and non-empty), else the right. -/
def pyOr (a b : Option String) : Option String :=
  match a with
  | some s => if s = "" then b else some s
  | none => b

/-- `ledger_invoice_key` (source lines 85-98). -/
def ledger_invoice_key (row : Row) : String :=
  strUpper (norm (pyOr (rowGet row "Invoice Number")
    (pyOr (rowGet row "Invoice number") (rowGet row "Invoice"))))

/-- `invoice_guid_key` (source lines 101-114). -/
def invoice_guid_key (row : Row) : String :=
  strLower (norm (pyOr (rowGet row "Invoice ID")
    (pyOr (rowGet row "InvoiceId") (rowGet row "Invoice_GUID"))))

/-- `invoice_number_key` (source lines 117-132). -/
def invoice_number_key (row : Row) : String :=
  strUpper (norm (pyOr (rowGet row "Xero number")
    (pyOr (rowGet row "Invoice Number")
      (pyOr (rowGet row "Invoice number") (rowGet row "Invoice")))))

/-- `manifest_guid_key` (source lines 135-148). -/
def manifest_guid_key (row : Row) : String :=
  strLower (norm (pyOr (rowGet row "Invoice ID")
    (pyOr (rowGet row "InvoiceId") (rowGet row "Invoice_GUID"))))

/-- `manifest_pdf_path` (source lines 151-166). -/
def manifest_pdf_path (row : Row) : String :=
  norm (pyOr (rowGet row "PDF_Path")
    (pyOr (rowGet row "PdfPath") (pyOr (rowGet row "FilePath") (rowGet row "Path"))))

/-- The inner candidate scan of `sum_field` (source lines 179-183): the raw
value of the first candidate column that is present with a normalized
non-empty value (the `break` makes later candidates unreachable). -/
def pickCell (row : Row) : List String → Option String
  | [] => none
  | c :: cs =>
    match rowGet row c with
    | some v => if norm (some v) ≠ "" then some v else pickCell row cs
    | none => pickCell row cs

/-- The accumulating loop of `sum_field`; `none` models a trapped decimal
signal (`InvalidOperation` or `Overflow`) raised by
`total += safe_decimal(...)`. -/
def sumFieldAux (acc : PyDec) (cands : List String) : List Row → Option PyDec
  | [] => some acc
  | r :: rs =>
    match pickCell r cands with
    | some v =>
      match padd acc (safe_decimal (some v)) with
      | some acc2 => sumFieldAux acc2 cands rs
      | none => none
    | none => sumFieldAux acc cands rs

/-- `sum_field(rows, candidates)` (source lines 169-184). -/
def sum_field (rows : List Row) (cands : List String) : Option PyDec :=
  sumFieldAux (.fin 0 0) cands rows

/-- A grouped index: `Dict[str, List[dict]]` built with
`setdefault(k, []).append(r)`, modelled as an association list in key
insertion order with each group in row order. -/
abbrev Idx : Type := List (String × List Row)

/-- Append `r` to the group of `k`, creating the group at the end of the
index if `k` is new (`dict.setdefault(k, []).append(r)`). -/
def addToIndex (idx : Idx) (k : String) (r : Row) : Idx :=
  match idx with
  | [] => [(k, [r])]
  | (k', g) :: t => if k' = k then (k', g ++ [r]) :: t else (k', g) :: addToIndex t k r

/-- Build a grouped index from a row list, skipping rows whose extracted key
is empty (source lines 224-248). -/
def buildIndex (key : Row → String) (rows : List Row) : Idx :=
  rows.foldl (fun idx r => let k := key r; if k = "" then idx else addToIndex idx k r) []

/-- The keys of an index, in insertion order (`dict.keys()`). -/
def idxKeys (idx : Idx) : List String := idx.map (·.1)

/-- `idx.get(k, [])`. -/
def idxGet (idx : Idx) (k : String) : List Row :=
  match idx with
  | [] => []
  | (k', g) :: t => if k' = k then g else idxGet t k

/-- Lexicographic (code-point) comparison of character lists: `a ≤ b` as a
computable Boolean.  Python's `sorted` on strings uses exactly this order. -/
def lexLe : List Char → List Char → Bool
  | [], _ => true
  | _ :: _, [] => false
  | a :: as, b :: bs => if a < b then true else if b < a then false else lexLe as bs

instance : DecidableRel (fun a b : String => lexLe a.data b.data = true) :=
  fun a b => instDecidableEqBool _ _

/-- Ascending sort of a string list; Python's `sorted` on strings is the
lexicographic code-point order, which agrees with Mathlib's linear order on
`String` (`lexLe_iff_le` below). -/
def sortStrings (l : List String) : List String :=
  l.insertionSort (fun a b => lexLe a.data b.data = true)

/-- Two-digit zero-padded rendering of `k < 100`. -/
def twoDigits (k : ℕ) : String :=
  if k < 10 then "0" ++ toString k else toString k

/-- `f"{d:.2f}"` on a `Decimal`: fixed-point with two fractional digits and
half-even rounding (formatting rounds with the context's rounding mode but
ignores its precision and traps no signal); `n` is the value scaled to
cents and rounded to an integer.  A negative value rounding to zero keeps
its sign (`-0.00`); infinities and NaN render as their names.  (A signaling
NaN never reaches formatting in the program: it raises during summation
first.) -/
def fmt2 : PyDec → String
  | .fin m e =>
    let n : ℤ :=
      if 0 ≤ e + 2 then m * pow10i (e + 2).toNat
      else
        let q := halfEvenDiv m.natAbs ((10 : ℕ) ^ (-(e + 2)).toNat)
        if m < 0 then -(q : ℤ) else (q : ℤ)
    let sgn := if n < 0 ∨ (n = 0 ∧ m < 0) then "-" else ""
    let a := n.natAbs
    sgn ++ toString (a / 100) ++ "." ++ twoDigits (a % 100)
  | .inf neg => if neg then "-Infinity" else "Infinity"
  | .nan => "NaN"
  | .snan => "sNaN"

/-- One output row of the reconciliation (the dict literals at source lines
299-325 and 358-384).  Two bookkeeping fields record intermediate values of
the emitting pass: `ledger_gross_dec` is the pre-formatting value of the
local variable `ledger_gross` (the CSV field `Ledger_Gross_AUD` is its
`:.2f` rendering), and `ledger_rows` is the list of ledger rows the record
summed its ledger totals over (the local `ledger_rows_for_invoice` of
Pass 1, `ledger_by_invnum[inv_num]` of Pass 2). -/
structure MasterRow where
  Year : String
  Invoice_GUID : String
  Invoice_Number : String
  Invoice_Type : String
  Invoice_Date : String
  Invoice_Contact : String
  Invoice_Description : String
  Invoice_Currency : String
  Invoice_Line_Count : Nat
  Invoice_Line_Total : String
  Invoice_Tax_Total : String
  In_Ledger : String
  Ledger_Row_Count : Nat
  Ledger_Gross_AUD : String
  Ledger_Net_AUD : String
  Ledger_GST_AUD : String
  In_Manifest : String
  Manifest_Row_Count : Nat
  PDF_Present : String
  PDF_Count : Nat
  PDF_Paths : String
  ledger_gross_dec : PyDec
  ledger_rows : List Row
deriving DecidableEq, Repr

def grossCands : List String := ["Gross (AUD)", "Gross", "Gross (Source)"]

def netCands : List String := ["Net (AUD)", "Net", "Net (Source)"]

def gstCands : List String := ["GST (AUD)", "GST", "GST (Source)"]

def lineAmtCands : List String := ["Line amount", "Line Amount", "Line total", "Line Total"]

def taxAmtCands : List String := ["Tax amount", "Tax Amount", "GST", "GST (AUD)"]

/-- The Pass-1 loop body (source lines 257-325): build the Master Record for
one GUID.  `none` models an uncaught decimal signal (`InvalidOperation` or
`Overflow`) from a summing addition. -/
def emitGuid (year : String) (ledgerIdx invIdx manIdx : Idx) (guid : String) :
    Option MasterRow := do
  let inv_rows := idxGet invIdx guid
  let man_rows := idxGet manIdx guid
  let first_inv : Row := inv_rows.headD []
  let inv_num := invoice_number_key first_inv
  let inv_line_total ← sum_field inv_rows lineAmtCands
  let inv_tax_total ← sum_field inv_rows taxAmtCands
  let lrows := if inv_num ≠ "" then idxGet ledgerIdx inv_num else []
  let ledger_gross ← sum_field lrows grossCands
  let ledger_net ← sum_field lrows netCands
  let ledger_gst ← sum_field lrows gstCands
  let pdf_paths := sortStrings (((man_rows.map manifest_pdf_path).filter (· ≠ "")).dedup)
  pure
    { Year := year
      Invoice_GUID := guid
      Invoice_Number := inv_num
      Invoice_Type := norm (rowGet first_inv "Type")
      Invoice_Date := norm (rowGet first_inv "Date")
      Invoice_Contact := norm (rowGet first_inv "Contact")
      Invoice_Description := norm (rowGet first_inv "Description")
      Invoice_Currency := norm (rowGet first_inv "Currency")
      Invoice_Line_Count := inv_rows.length
      Invoice_Line_Total := fmt2 inv_line_total
      Invoice_Tax_Total := fmt2 inv_tax_total
      In_Ledger := if lrows.isEmpty then "N" else "Y"
      Ledger_Row_Count := lrows.length
      Ledger_Gross_AUD := fmt2 ledger_gross
      Ledger_Net_AUD := fmt2 ledger_net
      Ledger_GST_AUD := fmt2 ledger_gst
      In_Manifest := if man_rows.isEmpty then "N" else "Y"
      Manifest_Row_Count := man_rows.length
      PDF_Present := if pdf_paths.isEmpty then "N" else "Y"
      PDF_Count := pdf_paths.length
      PDF_Paths := String.intercalate "; " pdf_paths
      ledger_gross_dec := ledger_gross
      ledger_rows := lrows }

/-- The Pass-2 loop body (source lines 337-384): build the Master Record for
one ledger-only invoice number. -/
def emitLedgerOnly (year : String) (ledgerIdx : Idx) (inv_num : String) :
    Option MasterRow := do
  let l_rows := idxGet ledgerIdx inv_num
  let ledger_gross ← sum_field l_rows grossCands
  let ledger_net ← sum_field l_rows netCands
  let ledger_gst ← sum_field l_rows gstCands
  let first_l : Row := l_rows.headD []
  pure
    { Year := year
      Invoice_GUID := ""
      Invoice_Number := inv_num
      Invoice_Type := ""
      Invoice_Date := ""
      Invoice_Contact := norm (rowGet first_l "Contact")
      Invoice_Description := norm (rowGet first_l "Description")
      Invoice_Currency := norm (rowGet first_l "Currency")
      Invoice_Line_Count := 0
      Invoice_Line_Total := "0.00"
      Invoice_Tax_Total := "0.00"
      In_Ledger := "Y"
      Ledger_Row_Count := l_rows.length
      Ledger_Gross_AUD := fmt2 ledger_gross
      Ledger_Net_AUD := fmt2 ledger_net
      Ledger_GST_AUD := fmt2 ledger_gst
      In_Manifest := "N"
      Manifest_Row_Count := 0
      PDF_Present := "N"
      PDF_Count := 0
      PDF_Paths := ""
      ledger_gross_dec := ledger_gross
      ledger_rows := l_rows }

/-- Run an `Option`-valued producer over a list, collecting the results in
order; `none` as soon as one call fails (the Python for-loops appending to
`master_rows`, with an uncaught exception aborting the loop). -/
def mapO (f : α → Option β) : List α → Option (List β)
  | [] => some []
  | a :: t =>
    match f a with
    | none => none
    | some b =>
      match mapO f t with
      | none => none
      | some bs => some (b :: bs)

/-- `sorted(set(invoice_by_guid) | set(manifest_by_guid))` (source lines
252 and 257). -/
def guidKeysOf (invIdx manIdx : Idx) : List String :=
  sortStrings ((idxKeys invIdx ++ idxKeys manIdx).dedup)

/-- `invnums_from_guid` (source lines 328-332): the invoice number derived
from the first row of each GUID-keyed invoice group. -/
def derivedOf (invIdx : Idx) : List String :=
  invIdx.filterMap fun kv =>
    if kv.2.isEmpty then none else some (invoice_number_key (kv.2.headD []))

/-- `sorted(ledger_only_invnums)` (source lines 333-337): ledger keys not
derivable from a GUID-keyed invoice group. -/
def ledgerOnlyOf (ledgerIdx invIdx : Idx) : List String :=
  sortStrings ((idxKeys ledgerIdx).filter (fun k => k ∉ derivedOf invIdx))

/-- The reconciliation core (source lines 221-384): build the three indices
(the invoice-by-invoice-number index is also built by the source but never
read afterwards, so it is omitted), run Pass 1 over the sorted GUID union,
then Pass 2 over the sorted ledger-only invoice numbers. -/
def reconcile (year : String) (ledger_rows invoice_rows manifest_rows : List Row) :
    Option (List MasterRow) :=
  let ledgerIdx := buildIndex ledger_invoice_key ledger_rows
  let invIdx := buildIndex invoice_guid_key invoice_rows
  let manIdx := buildIndex manifest_guid_key manifest_rows
  match mapO (emitGuid year ledgerIdx invIdx manIdx) (guidKeysOf invIdx manIdx) with
  | none => none
  | some p1 =>
    match mapO (emitLedgerOnly year ledgerIdx) (ledgerOnlyOf ledgerIdx invIdx) with
    | none => none
    | some p2 => some (p1 ++ p2)

/-- Python `str.splitlines` restricted to the line breaks that occur in CSV
text (`\r\n`, `\n`, `\r`); `cur` holds the current line reversed.  A
trailing line break does not open a final empty line. -/
def splitLinesAux (cur : List Char) : List Char → List (List Char)
  | [] => if cur.isEmpty then [] else [cur.reverse]
  | '\r' :: '\n' :: t => cur.reverse :: splitLinesAux [] t
  | '\r' :: t => cur.reverse :: splitLinesAux [] t
  | '\n' :: t => cur.reverse :: splitLinesAux [] t
  | c :: t => splitLinesAux (c :: cur) t

/-- `text.splitlines()`. -/
def splitLinesPy (l : List Char) : List (List Char) := splitLinesAux [] l

/-- Split at commas (`ln.split(",")`): always at least one field. -/
def splitCommasAux (cur : List Char) : List Char → List String
  | [] => [(⟨cur.reverse⟩ : String)]
  | ',' :: t => (⟨cur.reverse⟩ : String) :: splitCommasAux [] t
  | c :: t => splitCommasAux (c :: cur) t

/-- `ln.split(",")`. -/
def splitCommas (l : List Char) : List String := splitCommasAux [] l

/-- One trimmed field list for a line: `[p.strip() for p in ln.split(",")]`. -/
def lineFields (l : List Char) : List String :=
  (splitCommas l).map (fun s => norm (some s))

/-- The fallback parser of `download_csv` (source lines 64-80): keep the
non-blank lines, take the first as the header, and keep only the subsequent
lines whose comma-split field count matches the header, zipping each into a
row. -/
def csvFallback (text : String) : List Row :=
  let lines := (splitLinesPy text.data).filter (fun ln => trimChars ln ≠ [])
  match lines with
  | [] => []
  | hd :: tl =>
    let header := lineFields hd
    tl.filterMap fun ln =>
      let parts := lineFields ln
      if parts.length = header.length then some (header.zip parts) else none

/-- Modelled from the spec: the primary `csv.DictReader` parse, which the
source's docstring says can fail (raise `csv.Error`) on newline/quoting
issues.  Modelled as a quote-aware record scan that fails on a quote opened
and never closed; fields are split on commas outside quotes, doubled quotes
inside a quoted field denote a literal quote.  `inQ` is the in-quotes state,
`cur` the current field reversed, `fields` the fields of the current record
reversed. -/
def scanRecords (inQ : Bool) (cur : List Char) (fields : List String)
    (recs : List (List String)) : List Char → Option (List (List String))
  | [] =>
    if inQ then none
    else if cur.isEmpty ∧ fields.isEmpty then some recs.reverse
    else some (((((⟨cur.reverse⟩ : String) :: fields).reverse) :: recs).reverse)
  | c :: t =>
    if inQ then
      if c = '"' then
        match t with
        | '"' :: u => scanRecords true ('"' :: cur) fields recs u
        | u => scanRecords false cur fields recs u
      else scanRecords true (c :: cur) fields recs t
    else
      if c = '"' then scanRecords true cur fields recs t
      else if c = ',' then
        scanRecords false [] ((⟨cur.reverse⟩ : String) :: fields) recs t
      else if c = '\n' then
        scanRecords false [] [] ((((⟨cur.reverse⟩ : String) :: fields).reverse) :: recs) t
      else if c = '\r' then
        match t with
        | '\n' :: u =>
          scanRecords false [] [] ((((⟨cur.reverse⟩ : String) :: fields).reverse) :: recs) u
        | u =>
          scanRecords false [] [] ((((⟨cur.reverse⟩ : String) :: fields).reverse) :: recs) u
      else scanRecords false (c :: cur) fields recs t

/-- Modelled from the spec: `csv.DictReader` over the text — header record
then one dict per record, blank records skipped, short records leaving the
extra headers unfilled (Python fills them with `None`, which behaves as
absent). -/
def csvPrimary (text : String) : Option (List Row) :=
  match scanRecords false [] [] [] text.data with
  | none => none
  | some recs =>
    match recs.filter (fun r => r ≠ [""]) with
    | [] => some []
    | header :: body => some (body.map fun parts => header.zip parts)

/-- `download_csv` minus the HTTP fetch (source lines 33-80): empty locator
gives an empty list without fetching; a failed fetch (`urlopen` raising) is
`none` — the exception is not caught and propagates; otherwise the primary
parse, falling back to the line parser when the primary fails. -/
def download_csv (fetch : String → Option String) (url : String) :
    Option (List Row) :=
  if url = "" then some []
  else
    match fetch url with
    | none => none
    | some text =>
      match csvPrimary text with
      | some rows => some rows
      | none => some (csvFallback text)

/-- Does a CSV field need quoting under `QUOTE_MINIMAL`? -/
def needsQuote (s : String) : Bool :=
  s.data.any fun c => c = '"' ∨ c = ',' ∨ c = '\r' ∨ c = '\n'

/-- Render one CSV field, doubling quotes when quoted. -/
def csvField (s : String) : String :=
  if needsQuote s then
    "\x22" ++ ⟨s.data.foldr (fun c acc => if c = '"' then '"' :: '"' :: acc else c :: acc) []⟩ ++ "\x22"
  else s

/-- Render one CSV record with CRLF terminator. -/
def csvLine (fields : List String) : String :=
  String.intercalate "," (fields.map csvField) ++ "\r\n"

/-- The output column list (source lines 390-412). -/
def fieldnames : List String :=
  ["Year", "Invoice_GUID", "Invoice_Number", "Invoice_Type", "Invoice_Date",
   "Invoice_Contact", "Invoice_Description", "Invoice_Currency",
   "Invoice_Line_Count", "Invoice_Line_Total", "Invoice_Tax_Total",
   "In_Ledger", "Ledger_Row_Count", "Ledger_Gross_AUD", "Ledger_Net_AUD",
   "Ledger_GST_AUD", "In_Manifest", "Manifest_Row_Count", "PDF_Present",
   "PDF_Count", "PDF_Paths"]

/-- The CSV cell values of a Master Record, in `fieldnames` order (ints are
rendered by `str`). -/
def rowCells (r : MasterRow) : List String :=
  [r.Year, r.Invoice_GUID, r.Invoice_Number, r.Invoice_Type, r.Invoice_Date,
   r.Invoice_Contact, r.Invoice_Description, r.Invoice_Currency,
   toString r.Invoice_Line_Count, r.Invoice_Line_Total, r.Invoice_Tax_Total,
   r.In_Ledger, toString r.Ledger_Row_Count, r.Ledger_Gross_AUD,
   r.Ledger_Net_AUD, r.Ledger_GST_AUD, r.In_Manifest,
   toString r.Manifest_Row_Count, r.PDF_Present, toString r.PDF_Count,
   r.PDF_Paths]

/-- `csv.DictWriter` serialization of the master rows (source lines
414-420). -/
def csvRender (rows : List MasterRow) : String :=
  csvLine fieldnames ++ String.join (rows.map fun r => csvLine (rowCells r))

/-- The run summary pushed to the dataset (source lines 428-437). -/
structure Summary where
  year : String
  ledger_rows : Nat
  invoice_rows : Nat
  manifest_rows : Nat
  guid_keys : Nat
  ledger_only_invoice_numbers : Nat
  master_rows : Nat
  kv_filename : String
deriving DecidableEq, Repr

/-- The observable outcome of one actor run: a clean early return with no
artifact (the two guarded fatal conditions), an uncaught exception (also no
artifact), or completion with the CSV artifact and the summary record. -/
inductive RunOutcome
  | earlyExit
  | crashed
  | done (csv : String) (summary : Summary)
deriving DecidableEq, Repr

/-- Did the run produce its output artifacts? -/
def RunOutcome.producedOutput : RunOutcome → Bool
  | .done _ _ => true
  | _ => false

/-- `main` (source lines 190-444) over its effective inputs: the four input
fields (`None` for an absent key) and the HTTP fetch oracle (`none` = the
`urlopen` call raises). -/
def mainRun (yearIn ledgerIn invoiceIn manifestIn : Option String)
    (fetch : String → Option String) : RunOutcome :=
  let year := norm yearIn
  let ledger_url := norm ledgerIn
  let invoice_url := norm invoiceIn
  let manifest_url := norm manifestIn
  if ledger_url = "" ∨ invoice_url = "" ∨ manifest_url = "" then .earlyExit
  else
    match download_csv fetch ledger_url, download_csv fetch invoice_url,
        download_csv fetch manifest_url with
    | some ledger_rows, some invoice_rows, some manifest_rows =>
      if ledger_rows = [] ∧ invoice_rows = [] ∧ manifest_rows = [] then .earlyExit
      else
        match reconcile year ledger_rows invoice_rows manifest_rows with
        | none => .crashed
        | some master_rows =>
          let invIdx := buildIndex invoice_guid_key invoice_rows
          let manIdx := buildIndex manifest_guid_key manifest_rows
          let ledgerIdx := buildIndex ledger_invoice_key ledger_rows
          let filename_year := if year = "" then "unknown" else year
          let kv_filename := "ledger_master_" ++ filename_year ++ ".csv"
          .done (csvRender master_rows)
            { year := year
              ledger_rows := ledger_rows.length
              invoice_rows := invoice_rows.length
              manifest_rows := manifest_rows.length
              guid_keys := (guidKeysOf invIdx manIdx).length
              ledger_only_invoice_numbers := (ledgerOnlyOf ledgerIdx invIdx).length
              master_rows := master_rows.length
              kv_filename := kv_filename }
    | _, _, _ => .crashed

/-- Spec-side reading of a key extractor (§4.2): the value of the first
candidate header that is present with a non-empty value, or `none`. -/
def firstNonEmptyCell (row : Row) : List String → Option String
  | [] => none
  | c :: cs =>
    match rowGet row c with
    | some v => if v ≠ "" then some v else firstNonEmptyCell row cs
    | none => firstNonEmptyCell row cs

/-- Is a `Decimal` value finite? -/
def PyDec.isFinite : PyDec → Bool
  | .fin _ _ => true
  | _ => false

/-- The rational value of a finite `Decimal` (0 for the special values). -/
def toQ : PyDec → ℚ
  | .fin m e => (m : ℚ) * pow10 e
  | _ => 0

/-- The contribution of one row to `sum_field`: the parsed first matching
candidate cell, or 0 when no candidate matches. -/
def rowAmount (r : Row) (cands : List String) : PyDec :=
  match pickCell r cands with
  | some v => safe_decimal (some v)
  | none => .fin 0 0

/-- The rational contribution of one row to a tolerant sum. -/
def rowAmountQ (r : Row) (cands : List String) : ℚ :=
  toQ (rowAmount r cands)

/-- The invoice number Pass 1 derives for a GUID: the invoice-number key of
the first row of its invoice group (`""` when the group is absent). -/
def invNumOf (invIdx : Idx) (g : String) : String :=
  invoice_number_key ((idxGet invIdx g).headD [])

/-- The ledger rows joined to a GUID (the local `ledger_rows_for_invoice` of
Pass 1). -/
def lrowsOf (ledgerIdx invIdx : Idx) (g : String) : List Row :=
  if invNumOf invIdx g ≠ "" then idxGet ledgerIdx (invNumOf invIdx g) else []

/-- The deduplicated, sorted non-empty PDF paths of a GUID's manifest rows
(the local `pdf_paths` of Pass 1). -/
def pdfPathsOf (manIdx : Idx) (g : String) : List String :=
  sortStrings (((idxGet manIdx g).map manifest_pdf_path).filter (· ≠ "")).dedup

/-- The Master Record Pass 1 emits for either GUID of the conservation
counterexample: both GUID groups derive invoice number `I1`, so both pull in
the same ledger row and book its gross amount. -/
def c1rec (g : String) : MasterRow :=
  { Year := "", Invoice_GUID := g, Invoice_Number := "I1", Invoice_Type := "",
    Invoice_Date := "", Invoice_Contact := "", Invoice_Description := "",
    Invoice_Currency := "", Invoice_Line_Count := 1,
    Invoice_Line_Total := "0.00", Invoice_Tax_Total := "0.00",
    In_Ledger := "Y", Ledger_Row_Count := 1,
    Ledger_Gross_AUD := "1.00",
    Ledger_Net_AUD := "0.00", Ledger_GST_AUD := "0.00",
    In_Manifest := "N", Manifest_Row_Count := 0, PDF_Present := "N",
    PDF_Count := 0, PDF_Paths := "", ledger_gross_dec := .fin 1 0,
    ledger_rows := [[("Invoice Number", "I1"), ("Gross", "1")]] }

/-! ### Whitespace-trimming lemmas -/

theorem dropWhile_ws_append (pre l : List Char) (h : ∀ c ∈ pre, pyWs c) :
    (pre ++ l).dropWhile pyWs = l.dropWhile pyWs := by
  induction pre with
  | nil => rfl
  | cons a t ih =>
    simp only [List.cons_append, List.dropWhile_cons, h a (List.mem_cons_self a t)]
    exact ih fun c hc => h c (List.mem_cons_of_mem a hc)

theorem dropWhile_append_of_ne_nil (l suf : List Char)
    (h : l.dropWhile pyWs ≠ []) :
    (l ++ suf).dropWhile pyWs = l.dropWhile pyWs ++ suf := by
  induction l with
  | nil => exact absurd rfl h
  | cons a t ih =>
    by_cases ha : pyWs a
    · simp only [List.cons_append, List.dropWhile_cons, ha, if_true] at h ⊢
      exact ih h
    · simp only [List.cons_append, List.dropWhile_cons, ha]
      simp

theorem trimChars_ws_append (pre l : List Char) (h : ∀ c ∈ pre, pyWs c) :
    trimChars (pre ++ l) = trimChars l := by
  unfold trimChars
  rw [dropWhile_ws_append pre l h]

theorem trimChars_append_ws (l suf : List Char) (h : ∀ c ∈ suf, pyWs c) :
    trimChars (l ++ suf) = trimChars l := by
  by_cases hd : l.dropWhile pyWs = []
  · have hl : ∀ c ∈ l, pyWs c := List.dropWhile_eq_nil_iff.mp hd
    have : (l ++ suf).dropWhile pyWs = [] := by
      rw [List.dropWhile_eq_nil_iff]
      intro c hc
      rcases List.mem_append.mp hc with h1 | h2
      · exact hl c h1
      · exact h c h2
    unfold trimChars
    rw [this, hd]
  · unfold trimChars
    rw [dropWhile_append_of_ne_nil l suf hd, List.reverse_append,
      dropWhile_ws_append suf.reverse _ (fun c hc => h c (List.mem_reverse.mp hc))]

theorem trimChars_decomp (l : List Char) :
    ∃ pre suf, (∀ c ∈ pre, pyWs c) ∧ (∀ c ∈ suf, pyWs c) ∧
      l = pre ++ trimChars l ++ suf := by
  refine ⟨l.takeWhile pyWs,
    ((l.dropWhile pyWs).reverse.takeWhile pyWs).reverse, ?_, ?_, ?_⟩
  · exact fun c hc => List.mem_takeWhile_imp hc
  · exact fun c hc => List.mem_takeWhile_imp (List.mem_reverse.mp hc)
  · have h2 : l.dropWhile pyWs =
        trimChars l ++ ((l.dropWhile pyWs).reverse.takeWhile pyWs).reverse := by
      unfold trimChars
      conv_lhs => rw [← List.reverse_reverse (l.dropWhile pyWs)]
      conv_lhs => rw [← List.takeWhile_append_dropWhile pyWs (l.dropWhile pyWs).reverse]
      rw [List.reverse_append]
    conv_lhs => rw [← List.takeWhile_append_dropWhile pyWs l, h2]
    rw [List.append_assoc]

theorem trimChars_filter_trimChars (p : Char → Bool) (l : List Char)
    (hp : ∀ c, pyWs c → p c) :
    trimChars ((trimChars l).filter p) = trimChars (l.filter p) := by
  obtain ⟨pre, suf, hpre, hsuf, hdec⟩ := trimChars_decomp l
  conv_rhs => rw [hdec]
  rw [List.filter_append, List.filter_append,
    List.filter_eq_self.mpr (fun c hc => hp c (hpre c hc)),
    List.filter_eq_self.mpr (fun c hc => hp c (hsuf c hc)),
    trimChars_append_ws _ suf hsuf, trimChars_ws_append pre _ hpre]

theorem ws_ne_comma (c : Char) (h : pyWs c) : (c != ',') = true := by
  unfold pyWs at h
  simp only [Bool.or_eq_true, beq_iff_eq] at h
  rcases h with ((((h | h) | h) | h) | h) | h <;> subst h <;> rfl

theorem ws_ne_underscore (c : Char) (h : pyWs c) : (c != '_') = true := by
  unfold pyWs at h
  simp only [Bool.or_eq_true, beq_iff_eq] at h
  rcases h with ((((h | h) | h) | h) | h) | h <;> subst h <;> rfl

/-- `safe_decimal` in closed form: the early return for blank input
coincides with the parse failure on the empty string, so the whole function
is one cleaning chain followed by a defaulting parse. -/
theorem safe_decimal_chain (s : String) :
    safe_decimal (some s) =
      (parseCore (trimChars ((trimChars
        ((trimChars s.data).filter (· != ','))).filter (· != '_')))).getD (.fin 0 0) := by
  unfold safe_decimal
  by_cases h : trimChars s.data = []
  · have hn : norm (some s) = "" := by
      show (⟨trimChars s.data⟩ : String) = ""
      rw [h]
    rw [if_pos hn, h]
    rfl
  · have hn : ¬ norm (some s) = "" := fun he => h (congrArg String.data he)
    rw [if_neg hn]
    show (match parseDecimal (stripCommas (norm (some s))) with
      | some d => d
      | none => PyDec.fin 0 0) = _
    have hd : parseDecimal (stripCommas (norm (some s)))
        = parseCore (trimChars ((trimChars
            ((trimChars s.data).filter (· != ','))).filter (· != '_'))) := rfl
    rw [hd]
    cases parseCore (trimChars ((trimChars
        ((trimChars s.data).filter (· != ','))).filter (· != '_'))) <;> rfl

/-- C7: `parse_amount` on a string with thousands separators equals
`parse_amount` on the separator-free form of the same string — in fact the
equality holds for every string, numeric or not.  The proof reduces both
sides through the cleaning chain (trim, strip commas, strip underscores,
trim) and shows comma-stripping commutes with trimming because whitespace
characters are never commas. -/
theorem c7_thousands_separator_free (s : String) :
    safe_decimal (some (stripCommas s)) = safe_decimal (some s) := by
  rw [safe_decimal_chain, safe_decimal_chain]
  have h1 : trimChars ((stripCommas s).data.filter (· != ','))
      = trimChars ((trimChars s.data).filter (· != ',')) := by
    show trimChars ((s.data.filter (· != ',')).filter (· != ','))
        = trimChars ((trimChars s.data).filter (· != ','))
    rw [trimChars_filter_trimChars (· != ',') s.data ws_ne_comma,
      List.filter_filter]
    simp
  rw [show (stripCommas s).data = (stripCommas s).data from rfl]
  unfold stripCommas
  rw [trimChars_filter_trimChars (· != ',') s.data ws_ne_comma] at h1 ⊢
  rw [show trimChars ((⟨s.data.filter (· != ',')⟩ : String).data)
      = trimChars (s.data.filter (· != ',')) from rfl]
  rw [trimChars_filter_trimChars (· != ',') (s.data.filter (· != ',')) ws_ne_comma,
    List.filter_filter]
  simp

/-- C6: `parse_amount` (`safe_decimal`) never raises: absent input and blank
strings give zero, a successful decimal parse of the normalized,
separator-stripped string is returned exactly, and a failing parse
(malformed numeric text) gives zero. -/
theorem c6_parse_amount_total (v : Option String) :
    (v = none → safe_decimal v = .fin 0 0)
    ∧ (norm v = "" → safe_decimal v = .fin 0 0)
    ∧ (∀ d, parseDecimal (stripCommas (norm v)) = some d → safe_decimal v = d)
    ∧ (parseDecimal (stripCommas (norm v)) = none → safe_decimal v = .fin 0 0) := by
  refine ⟨?_, ?_, ?_, ?_⟩
  · rintro rfl
    rfl
  · intro h
    unfold safe_decimal
    rw [if_pos h]
  · intro d hd
    unfold safe_decimal
    by_cases h : norm v = ""
    · rw [h, show parseDecimal (stripCommas "") = none from rfl] at hd
      cases hd
    · rw [if_neg h, hd]
  · intro hd
    unfold safe_decimal
    by_cases h : norm v = ""
    · rw [if_pos h]
    · rw [if_neg h, hd]

/-- Witness for C6 at concrete inputs: a parsable cell with thousands
separator and surrounding blanks is parsed exactly (coefficient 123450,
exponent -2, i.e. the exact rational 1234.50); `"N/A"` is malformed and
gives zero. -/
theorem c6_parse_amount_total_witness :
    (safe_decimal (some " 1,234.50 ") = .fin 123450 (-2)
        ∧ toQ (.fin 123450 (-2)) = 2469 / 2)
    ∧ safe_decimal (some "N/A") = .fin 0 0
    ∧ safe_decimal none = .fin 0 0
    ∧ safe_decimal (some "  ") = .fin 0 0 := by
  refine ⟨⟨?_, ?_⟩, ?_, ?_, ?_⟩
  · exact (c6_parse_amount_total (some " 1,234.50 ")).2.2.1 (.fin 123450 (-2)) rfl
  · rw [show toQ (.fin 123450 (-2)) = ((123450 : ℤ) : ℚ) * pow10 (-2) from rfl,
      pow10, if_neg (by decide), show ((-(-2:ℤ)).toNat) = 2 from rfl]
    norm_num
  · exact (c6_parse_amount_total (some "N/A")).2.2.2 rfl
  · exact (c6_parse_amount_total none).1 rfl
  · exact (c6_parse_amount_total (some "  ")).2.1 rfl

/-! ### Key-extractor lemmas -/

/-- Two optional cell values that normalize identically because they differ
only as `""` versus absent. -/
def weq (a b : Option String) : Prop :=
  a = b ∨ (a = some "" ∧ b = none) ∨ (a = none ∧ b = some "")

theorem weq_pyOr (a : Option String) {b b' : Option String} (h : weq b b') :
    weq (pyOr a b) (pyOr a b') := by
  cases a with
  | none => exact h
  | some s =>
    by_cases hs : s = ""
    · simp only [pyOr, if_pos hs]
      exact h
    · simp only [pyOr, if_neg hs]
      left
      rfl

theorem fnec_nil (row : Row) : firstNonEmptyCell row [] = none := rfl

theorem weq_norm {a b : Option String} (h : weq a b) : norm a = norm b := by
  rcases h with rfl | ⟨rfl, rfl⟩ | ⟨rfl, rfl⟩
  · rfl
  · rfl
  · rfl

theorem pyOr_none_weq (a : Option String) : weq a (pyOr a none) := by
  cases a with
  | none => left; rfl
  | some s =>
    by_cases hs : s = ""
    · subst hs
      right; left
      exact ⟨rfl, by simp [pyOr]⟩
    · left
      simp [pyOr, hs]

theorem fnec_cons (row : Row) (c : String) (cs : List String) :
    firstNonEmptyCell row (c :: cs) = pyOr (rowGet row c) (firstNonEmptyCell row cs) := by
  cases h : rowGet row c with
  | none => simp [firstNonEmptyCell, pyOr, h]
  | some v =>
    by_cases hv : v = "" <;> simp [firstNonEmptyCell, pyOr, h, hv]

/-- C5: each of the four key extractors returns the trimmed, case-folded
value of the first candidate header (in its fixed order) that is present
with a non-empty raw value, and `""` when no candidate is (the
`firstNonEmptyCell` reading returns `none` then, which normalizes to `""`).
The extractors are Lean functions of the row, so they are total and do not
mutate their argument. -/
theorem c5_extractors_first_candidate (row : Row) :
    ledger_invoice_key row =
      strUpper (norm (firstNonEmptyCell row
        ["Invoice Number", "Invoice number", "Invoice"]))
    ∧ invoice_guid_key row =
      strLower (norm (firstNonEmptyCell row
        ["Invoice ID", "InvoiceId", "Invoice_GUID"]))
    ∧ invoice_number_key row =
      strUpper (norm (firstNonEmptyCell row
        ["Xero number", "Invoice Number", "Invoice number", "Invoice"]))
    ∧ manifest_guid_key row =
      strLower (norm (firstNonEmptyCell row
        ["Invoice ID", "InvoiceId", "Invoice_GUID"])) := by
  refine ⟨?_, ?_, ?_, ?_⟩
  · unfold ledger_invoice_key
    rw [fnec_cons, fnec_cons, fnec_cons, fnec_nil]
    exact congrArg strUpper
      (weq_norm (weq_pyOr _ (weq_pyOr _ (pyOr_none_weq _))))
  · unfold invoice_guid_key
    rw [fnec_cons, fnec_cons, fnec_cons, fnec_nil]
    exact congrArg strLower
      (weq_norm (weq_pyOr _ (weq_pyOr _ (pyOr_none_weq _))))
  · unfold invoice_number_key
    rw [fnec_cons, fnec_cons, fnec_cons, fnec_cons, fnec_nil]
    exact congrArg strUpper
      (weq_norm (weq_pyOr _ (weq_pyOr _ (weq_pyOr _ (pyOr_none_weq _)))))
  · unfold manifest_guid_key
    rw [fnec_cons, fnec_cons, fnec_cons, fnec_nil]
    exact congrArg strLower
      (weq_norm (weq_pyOr _ (weq_pyOr _ (pyOr_none_weq _))))

/-! ### Loader lemmas (C8, C3) -/

theorem filterMap_ite_length {α β : Type} (p : α → Prop) [DecidablePred p]
    (g : α → β) (l : List α) :
    (l.filterMap (fun a => if p a then some (g a) else none)).length
      = (l.filter (fun a => decide (p a))).length := by
  induction l with
  | nil => rfl
  | cons a t ih =>
    by_cases hp : p a <;> simp [hp, ih]

theorem filterMap_ite_mem {α β : Type} (p : α → Prop) [DecidablePred p]
    (g : α → β) (l : List α) (b : β)
    (hb : b ∈ l.filterMap (fun a => if p a then some (g a) else none)) :
    ∃ a ∈ l, p a ∧ b = g a := by
  rw [List.mem_filterMap] at hb
  obtain ⟨a, ha, hfa⟩ := hb
  by_cases hp : p a
  · rw [if_pos hp] at hfa
    exact ⟨a, ha, hp, (Option.some_injective _ hfa).symm⟩
  · rw [if_neg hp] at hfa
    cases hfa

/-- Counterexample to C8 as stated: an unreachable locator (the fetch
raises) makes `download_csv` raise as well — the `urlopen` exception is not
caught — rather than return an empty list. -/
theorem c8_counterexample :
    download_csv (fun _ => none) "http://x" = none
    ∧ ("http://x" : String) ≠ ""
    ∧ download_csv (fun _ => none) "http://x" ≠ some [] := by
  refine ⟨?_, by decide, ?_⟩
  · rfl
  · intro h
    cases h.symm.trans (rfl : download_csv (fun _ => none) "http://x" = none)

/-- C8 amended: an empty locator yields an empty list without fetching; an
unreachable locator propagates the fetch failure; and the fallback line
parser never fails — it keeps exactly the lines whose field count matches
the header and skips the rest. -/
theorem c8_loader_tolerance :
    (∀ fetch : String → Option String, download_csv fetch "" = some [])
    ∧ (∀ (fetch : String → Option String) (url : String), url ≠ "" →
        fetch url = none → download_csv fetch url = none)
    ∧ (∀ (text : String) (hd : List Char) (tl : List (List Char)),
        (splitLinesPy text.data).filter (fun ln => trimChars ln ≠ []) = hd :: tl →
        (csvFallback text).length
            = (tl.filter (fun ln => decide ((lineFields ln).length = (lineFields hd).length))).length
          ∧ ∀ r ∈ csvFallback text, ∃ ln ∈ tl,
              (lineFields ln).length = (lineFields hd).length
              ∧ r = (lineFields hd).zip (lineFields ln)) := by
  refine ⟨fun fetch => rfl, ?_, ?_⟩
  · intro fetch url hu hf
    unfold download_csv
    rw [if_neg hu, hf]
  · intro text hd tl hlines
    unfold csvFallback
    rw [hlines]
    constructor
    · exact filterMap_ite_length _ _ tl
    · intro r hr
      obtain ⟨ln, hln, hp, hb⟩ := filterMap_ite_mem _ _ tl r hr
      exact ⟨ln, hln, hp, hb⟩

/-- Witness for C8 amended at a concrete malformed text: the middle line
has three fields against a two-field header and is skipped; the two valid
lines survive. -/
theorem c8_loader_tolerance_witness :
    (csvFallback "A,B\nbad,line,here\n1,2").length = 1
    ∧ (∀ r ∈ csvFallback "A,B\nbad,line,here\n1,2", ∃ ln ∈ [['b','a','d',',','l','i','n','e',',','h','e','r','e'], ['1',',','2']],
        (lineFields ln).length = (lineFields ['A',',','B']).length
        ∧ r = (lineFields ['A',',','B']).zip (lineFields ln))
    ∧ download_csv (fun _ => none) "http://unreachable" = none
    ∧ download_csv (fun _ => some "x") "" = some [] := by
  have h := c8_loader_tolerance.2.2 "A,B\nbad,line,here\n1,2" ['A',',','B']
    [['b','a','d',',','l','i','n','e',',','h','e','r','e'], ['1',',','2']] (by decide)
  exact ⟨h.1.trans (by decide), h.2,
    c8_loader_tolerance.2.1 (fun _ => none) "http://unreachable" (by decide) rfl,
    c8_loader_tolerance.1 (fun _ => some "x")⟩

/-- The default context traps `Overflow`: adding two values of adjusted
exponent `Emax + 1 = 10^9` raises (Python:
`Decimal("1E+1000000000") + Decimal("1E+1000000000")`), one of the crash
paths of the reconciliation core beyond `InvalidOperation`. -/
theorem padd_overflow_trap :
    padd (.fin 1 1000000000) (.fin 1 1000000000) = none := by decide

/-- Counterexample to C3 as stated: with all three locators present but the
fetch failing (unreachable source), the run halts without artifacts even
though neither of the two stated fatal conditions holds. -/
theorem c3_counterexample :
    (mainRun (some "2020") (some "a") (some "b") (some "c")
      (fun _ => none)).producedOutput = false
    ∧ ¬ (norm (some "a") = "" ∨ norm (some "b") = "" ∨ norm (some "c") = "")
    ∧ ¬ (download_csv (fun _ => none) (norm (some "a")) = some []
        ∧ download_csv (fun _ => none) (norm (some "b")) = some []
        ∧ download_csv (fun _ => none) (norm (some "c")) = some []) := by
  refine ⟨rfl, by decide, ?_⟩
  rintro ⟨h, -, -⟩
  cases h.symm.trans (rfl : download_csv (fun _ => none) (norm (some "a")) = none)

/-- C3 amended: the run halts without producing the CSV artifact and summary
exactly when a locator is missing, a source fetch raises, all three
downloaded row lists are empty, or the reconciliation core raises a trapped
decimal signal — an `InvalidOperation` (a summed cell parsing as a
signaling NaN, or adding opposite infinities) or an `Overflow` (a rounded
sum whose adjusted exponent exceeds the context `Emax`, see
`padd_overflow_trap`); in every other case (including per-cell data errors
and parse degradation, which the loader and `safe_decimal` absorb) the run
completes with both artifacts. -/
theorem c3_run_halts_iff (y l i m : Option String)
    (fetch : String → Option String) :
    (mainRun y l i m fetch).producedOutput = false ↔
      (norm l = "" ∨ norm i = "" ∨ norm m = "")
      ∨ (download_csv fetch (norm l) = none
          ∨ download_csv fetch (norm i) = none
          ∨ download_csv fetch (norm m) = none)
      ∨ (∃ lr ir mr, download_csv fetch (norm l) = some lr
          ∧ download_csv fetch (norm i) = some ir
          ∧ download_csv fetch (norm m) = some mr
          ∧ ((lr = [] ∧ ir = [] ∧ mr = [])
            ∨ (¬ (lr = [] ∧ ir = [] ∧ mr = [])
                ∧ reconcile (norm y) lr ir mr = none))) := by
  unfold mainRun
  by_cases hm : norm l = "" ∨ norm i = "" ∨ norm m = ""
  · rw [if_pos hm]
    simp [RunOutcome.producedOutput, hm]
  · rw [if_neg hm]
    push_neg at hm
    obtain ⟨hm1, hm2, hm3⟩ := hm
    cases hdl : download_csv fetch (norm l) with
    | none => simp [RunOutcome.producedOutput]
    | some lr =>
      cases hdi : download_csv fetch (norm i) with
      | none => simp [RunOutcome.producedOutput]
      | some ir =>
        cases hdm : download_csv fetch (norm m) with
        | none => simp [RunOutcome.producedOutput]
        | some mr =>
          dsimp only
          by_cases he : lr = [] ∧ ir = [] ∧ mr = []
          · rw [if_pos he]
            simp [RunOutcome.producedOutput, he]
          · rw [if_neg he]
            cases hrec : reconcile (norm y) lr ir mr with
            | none =>
              simp only [RunOutcome.producedOutput]
              simp [he]
              exact Or.inr ⟨fun h1 h2 h3 => he ⟨h1, h2, h3⟩, hrec⟩
            | some rows =>
              simp [RunOutcome.producedOutput, hm1, hm2, hm3, he, hrec]

/-! ### Grouped-index lemmas -/

theorem idxGet_addToIndex_self (idx : Idx) (k : String) (r : Row) :
    idxGet (addToIndex idx k r) k = idxGet idx k ++ [r] := by
  induction idx with
  | nil => simp [addToIndex, idxGet]
  | cons kv t ih =>
    by_cases hk : kv.1 = k
    · simp [addToIndex, idxGet, hk]
    · simp [addToIndex, idxGet, hk, ih]

theorem idxGet_addToIndex_ne (idx : Idx) (k k' : String) (r : Row) (h : k ≠ k') :
    idxGet (addToIndex idx k r) k' = idxGet idx k' := by
  induction idx with
  | nil => simp [addToIndex, idxGet, h]
  | cons kv t ih =>
    by_cases hk : kv.1 = k
    · simp [addToIndex, idxGet, hk, h]
    · simp only [addToIndex, if_neg hk]
      by_cases hk' : kv.1 = k'
      · simp [idxGet, hk']
      · simp [idxGet, hk', ih]

theorem idxKeys_addToIndex (idx : Idx) (k : String) (r : Row) :
    idxKeys (addToIndex idx k r)
      = if k ∈ idxKeys idx then idxKeys idx else idxKeys idx ++ [k] := by
  induction idx with
  | nil => simp [addToIndex, idxKeys]
  | cons kv t ih =>
    by_cases hk : kv.1 = k
    · simp [addToIndex, idxKeys, hk]
    · have hk' : ¬ k = kv.1 := fun h => hk h.symm
      rw [show addToIndex (kv :: t) k r = kv :: addToIndex t k r by
        simp [addToIndex, hk]]
      rw [show idxKeys (kv :: addToIndex t k r) = kv.1 :: idxKeys (addToIndex t k r)
        from rfl]
      rw [show idxKeys (kv :: t) = kv.1 :: idxKeys t from rfl]
      rw [ih]
      by_cases hm : k ∈ idxKeys t
      · rw [if_pos hm, if_pos (List.mem_cons.mpr (Or.inr hm))]
      · rw [if_neg hm, if_neg (by simp [List.mem_cons, hk', hm])]
        simp

/-- The loop of `buildIndex`, with a general starting index. -/
theorem idxGet_buildIndex_loop (key : Row → String) (rows : List Row) :
    ∀ (idx : Idx) (k : String), k ≠ "" →
      idxGet (rows.foldl (fun idx r =>
          let kk := key r; if kk = "" then idx else addToIndex idx kk r) idx) k
        = idxGet idx k ++ rows.filter (fun r => key r = k) := by
  induction rows with
  | nil => simp
  | cons r t ih =>
    intro idx k hk
    rw [List.foldl_cons]
    dsimp only
    by_cases hkr : key r = ""
    · have hne : ¬ (key r = k) := fun h => hk (h ▸ hkr)
      rw [if_pos hkr, List.filter_cons_of_neg (by simpa using hne)]
      exact ih idx k hk
    · rw [if_neg hkr]
      by_cases hek : key r = k
      · rw [List.filter_cons_of_pos (by simpa using hek)]
        rw [ih (addToIndex idx (key r) r) k hk, hek, idxGet_addToIndex_self,
          List.append_assoc, List.singleton_append]
      · rw [List.filter_cons_of_neg (by simpa using hek)]
        rw [ih (addToIndex idx (key r) r) k hk,
          idxGet_addToIndex_ne idx (key r) k r hek]

/-- The group of `k` in a built index is exactly the rows keyed `k`, in input
order. -/
theorem idxGet_buildIndex (key : Row → String) (rows : List Row) (k : String)
    (hk : k ≠ "") :
    idxGet (buildIndex key rows) k = rows.filter (fun r => key r = k) := by
  have h := idxGet_buildIndex_loop key rows [] k hk
  simpa [buildIndex, idxGet] using h

theorem mem_idxKeys_buildIndex_loop (key : Row → String) (rows : List Row) :
    ∀ (idx : Idx) (k : String),
      (k ∈ idxKeys (rows.foldl (fun idx r =>
          let kk := key r; if kk = "" then idx else addToIndex idx kk r) idx)
        ↔ k ∈ idxKeys idx ∨ (k ≠ "" ∧ ∃ r ∈ rows, key r = k)) := by
  induction rows with
  | nil => simp
  | cons r t ih =>
    intro idx k
    rw [List.foldl_cons]
    dsimp only
    by_cases hkr : key r = ""
    · rw [if_pos hkr]
      rw [ih idx k]
      constructor
      · rintro (h | h)
        · exact Or.inl h
        · exact Or.inr ⟨h.1, h.2.choose, List.mem_cons_of_mem r h.2.choose_spec.1,
            h.2.choose_spec.2⟩
      · rintro (h | ⟨hne, rr, hrr, hkey⟩)
        · exact Or.inl h
        · rcases List.mem_cons.mp hrr with rfl | hrr'
          · exact absurd (hkey ▸ hkr) (by simpa [hkey] using hne)
          · exact Or.inr ⟨hne, rr, hrr', hkey⟩
    · rw [if_neg hkr]
      rw [ih (addToIndex idx (key r) r) k, idxKeys_addToIndex]
      by_cases hm : key r ∈ idxKeys idx
      · rw [if_pos hm]
        constructor
        · rintro (h | h)
          · exact Or.inl h
          · exact Or.inr ⟨h.1, h.2.choose, List.mem_cons_of_mem r h.2.choose_spec.1,
              h.2.choose_spec.2⟩
        · rintro (h | ⟨hne, rr, hrr, hkey⟩)
          · exact Or.inl h
          · rcases List.mem_cons.mp hrr with rfl | hrr'
            · exact Or.inl (hkey ▸ hm)
            · exact Or.inr ⟨hne, rr, hrr', hkey⟩
      · rw [if_neg hm]
        simp only [List.mem_append, List.mem_singleton]
        constructor
        · rintro ((h | h) | h)
          · exact Or.inl h
          · exact Or.inr ⟨h ▸ hkr, r, List.mem_cons_self r t, h.symm⟩
          · exact Or.inr ⟨h.1, h.2.choose, List.mem_cons_of_mem r h.2.choose_spec.1,
              h.2.choose_spec.2⟩
        · rintro (h | ⟨hne, rr, hrr, hkey⟩)
          · exact Or.inl (Or.inl h)
          · rcases List.mem_cons.mp hrr with rfl | hrr'
            · exact Or.inl (Or.inr hkey.symm)
            · exact Or.inr ⟨hne, rr, hrr', hkey⟩

theorem mem_idxKeys_buildIndex (key : Row → String) (rows : List Row) (k : String) :
    k ∈ idxKeys (buildIndex key rows) ↔ k ≠ "" ∧ ∃ r ∈ rows, key r = k := by
  have h := mem_idxKeys_buildIndex_loop key rows [] k
  simpa [buildIndex, idxKeys] using h

theorem idxKeys_nodup_addToIndex (idx : Idx) (k : String) (r : Row)
    (h : (idxKeys idx).Nodup) : (idxKeys (addToIndex idx k r)).Nodup := by
  rw [idxKeys_addToIndex]
  by_cases hm : k ∈ idxKeys idx
  · rw [if_pos hm]; exact h
  · rw [if_neg hm]
    rw [List.nodup_append]
    refine ⟨h, List.nodup_singleton k, ?_⟩
    intro a ha hak
    rw [List.mem_singleton] at hak
    exact hm (hak ▸ ha)

theorem idxKeys_nodup_loop (key : Row → String) (rows : List Row) :
    ∀ idx : Idx, (idxKeys idx).Nodup →
      (idxKeys (rows.foldl (fun idx r =>
        let kk := key r; if kk = "" then idx else addToIndex idx kk r) idx)).Nodup := by
  induction rows with
  | nil => exact fun idx h => h
  | cons r t ih =>
    intro idx h
    rw [List.foldl_cons]
    by_cases hkr : key r = ""
    · simpa [hkr] using ih idx h
    · simpa [hkr] using ih (addToIndex idx (key r) r) (idxKeys_nodup_addToIndex idx _ r h)

theorem idxKeys_nodup (key : Row → String) (rows : List Row) :
    (idxKeys (buildIndex key rows)).Nodup :=
  idxKeys_nodup_loop key rows [] (by simp [idxKeys])

theorem idxGet_not_mem (idx : Idx) (k : String) (h : k ∉ idxKeys idx) :
    idxGet idx k = [] := by
  induction idx with
  | nil => rfl
  | cons kv t ih =>
    simp only [idxKeys, List.map_cons, List.mem_cons] at h
    push_neg at h
    rw [show idxGet (kv :: t) k = if kv.1 = k then kv.2 else idxGet t k from rfl,
      if_neg (fun he => h.1 he.symm)]
    exact ih h.2

theorem empty_not_mem_idxKeys (key : Row → String) (rows : List Row) :
    "" ∉ idxKeys (buildIndex key rows) := by
  rw [mem_idxKeys_buildIndex]
  rintro ⟨h, -⟩
  exact h rfl

theorem idxGet_of_mem_entries (idx : Idx) (kv : String × List Row)
    (hnd : (idxKeys idx).Nodup) (h : kv ∈ idx) : idxGet idx kv.1 = kv.2 := by
  induction idx with
  | nil => cases h
  | cons kv' t ih =>
    rcases List.mem_cons.mp h with rfl | hm
    · simp [idxGet]
    · simp only [idxKeys, List.map_cons, List.nodup_cons] at hnd
      have hne : kv'.1 ≠ kv.1 := by
        intro he
        refine hnd.1 ?_
        rw [he]
        exact List.mem_map_of_mem _ hm
      rw [show idxGet (kv' :: t) kv.1 = if kv'.1 = kv.1 then kv'.2 else idxGet t kv.1
        from rfl, if_neg hne]
      exact ih hnd.2 hm

theorem entry_of_mem_idxKeys (idx : Idx) (k : String) (h : k ∈ idxKeys idx) :
    ∃ g, (k, g) ∈ idx := by
  induction idx with
  | nil => cases h
  | cons kv t ih =>
    rcases List.mem_cons.mp h with he | hm
    · exact ⟨kv.2, by rw [he]; exact List.mem_cons_self _ _⟩
    · obtain ⟨g, hg⟩ := ih hm
      exact ⟨g, List.mem_cons_of_mem _ hg⟩

/-! ### `mapO` lemmas -/

theorem mapO_forall2 {α β : Type} {f : α → Option β} {l : List α} {ys : List β}
    (h : mapO f l = some ys) : List.Forall₂ (fun a b => f a = some b) l ys := by
  induction l generalizing ys with
  | nil =>
    cases h
    exact List.Forall₂.nil
  | cons a t ih =>
    unfold mapO at h
    cases hfa : f a with
    | none => rw [hfa] at h; cases h
    | some b =>
      rw [hfa] at h
      cases hmt : mapO f t with
      | none => rw [hmt] at h; cases h
      | some bs =>
        rw [hmt] at h
        cases h
        exact List.Forall₂.cons hfa (ih hmt)

theorem mapO_map_eq {α β γ : Type} {f : α → Option β} (g : β → γ) (gl : α → γ) :
    ∀ (l : List α) (ys : List β), mapO f l = some ys →
      (∀ a ∈ l, ∀ b, f a = some b → g b = gl a) → ys.map g = l.map gl := by
  intro l
  induction l with
  | nil =>
    intro ys h _
    cases h
    rfl
  | cons a t ih =>
    intro ys h hpt
    unfold mapO at h
    cases hfa : f a with
    | none => rw [hfa] at h; cases h
    | some b =>
      rw [hfa] at h
      cases hmt : mapO f t with
      | none => rw [hmt] at h; cases h
      | some bs =>
        rw [hmt] at h
        cases h
        simp only [List.map_cons]
        rw [hpt a (List.mem_cons_self a t) b hfa,
          ih bs hmt (fun x hx b' hb' => hpt x (List.mem_cons_of_mem a hx) b' hb')]

theorem mapO_mem {α β : Type} {f : α → Option β} :
    ∀ {l : List α} {ys : List β}, mapO f l = some ys →
      ∀ {b : β}, b ∈ ys → ∃ a ∈ l, f a = some b := by
  intro l
  induction l with
  | nil =>
    intro ys h b hb
    cases h
    cases hb
  | cons a t ih =>
    intro ys h b hb
    unfold mapO at h
    cases hfa : f a with
    | none => rw [hfa] at h; cases h
    | some b' =>
      rw [hfa] at h
      cases hmt : mapO f t with
      | none => rw [hmt] at h; cases h
      | some bs =>
        rw [hmt] at h
        cases h
        rcases List.mem_cons.mp hb with rfl | hb'
        · exact ⟨a, List.mem_cons_self a t, hfa⟩
        · obtain ⟨x, hx, hfx⟩ := ih hmt hb'
          exact ⟨x, List.mem_cons_of_mem a hx, hfx⟩

theorem mapO_mem_of_mem {α β : Type} {f : α → Option β} :
    ∀ {l : List α} {ys : List β}, mapO f l = some ys →
      ∀ {a : α}, a ∈ l → ∃ b ∈ ys, f a = some b := by
  intro l
  induction l with
  | nil =>
    intro ys h a ha
    cases ha
  | cons a t ih =>
    intro ys h x hx
    unfold mapO at h
    cases hfa : f a with
    | none => rw [hfa] at h; cases h
    | some b' =>
      rw [hfa] at h
      cases hmt : mapO f t with
      | none => rw [hmt] at h; cases h
      | some bs =>
        rw [hmt] at h
        cases h
        rcases List.mem_cons.mp hx with rfl | hx'
        · exact ⟨b', List.mem_cons_self b' bs, hfa⟩
        · obtain ⟨b, hb, hfb⟩ := ih hmt hx'
          exact ⟨b, List.mem_cons_of_mem b' hb, hfb⟩

/-- In a `mapO` image of a duplicate-free key list, each key of the list
owns exactly one output element, located by any key-extracting function that
inverts the producer. -/
theorem mapO_filter_key {α β : Type} [DecidableEq α] {f : α → Option β}
    {keyf : β → α} (hf : ∀ a b, f a = some b → keyf b = a)
    {K : List α} {ys : List β} (hm : mapO f K = some ys) (hk : K.Nodup)
    {g : α} (hg : g ∈ K) :
    ∃ rec, ys.filter (fun x => keyf x = g) = [rec] ∧ f g = some rec := by
  induction K generalizing ys with
  | nil => cases hg
  | cons a t ih =>
    unfold mapO at hm
    cases hfa : f a with
    | none => rw [hfa] at hm; cases hm
    | some b =>
      rw [hfa] at hm
      cases hmt : mapO f t with
      | none => rw [hmt] at hm; cases hm
      | some bs =>
        rw [hmt] at hm
        cases hm
        have hnd := List.nodup_cons.mp hk
        rcases List.mem_cons.mp hg with rfl | hg'
        · refine ⟨b, ?_, hfa⟩
          rw [List.filter_cons_of_pos (by simpa using hf _ _ hfa)]
          rw [List.filter_eq_nil_iff.mpr, List.cons_eq_cons]
          · exact ⟨rfl, rfl⟩
          · intro x hx
            obtain ⟨a', ha', hfa'⟩ := mapO_mem hmt hx
            simp only [decide_eq_true_eq]
            rw [hf _ _ hfa']
            intro he
            exact hnd.1 (he ▸ ha')
        · obtain ⟨rec, hfil, hfr⟩ := ih hmt hnd.2 hg'
          refine ⟨rec, ?_, hfr⟩
          rw [List.filter_cons_of_neg, hfil]
          simp only [decide_eq_true_eq]
          rw [hf _ _ hfa]
          intro he
          exact hnd.1 (he ▸ hg')

/-! ### Sorting lemmas -/

theorem lexLe_iff_not_lt :
    ∀ as bs : List Char, lexLe as bs = true ↔ ¬ List.lt bs as := by
  intro as
  induction as with
  | nil =>
    intro bs
    simp only [lexLe]
    constructor
    · intro _ hlt
      cases hlt
    · intro _
      trivial
  | cons a as ih =>
    intro bs
    cases bs with
    | nil =>
      simp only [lexLe]
      constructor
      · intro h
        cases h
      · intro h
        exact absurd (List.lt.nil a as) h
    | cons b bs =>
      simp only [lexLe]
      by_cases hab : a < b
      · rw [if_pos hab]
        simp only [true_iff]
        intro hlt
        cases hlt with
        | head _ _ hba => exact lt_asymm hab hba
        | tail hnba hnab _ => exact hnab hab
      · rw [if_neg hab]
        by_cases hba : b < a
        · rw [if_pos hba]
          constructor
          · intro h
            cases h
          · intro h
            exact absurd (List.lt.head bs as hba) h
        · rw [if_neg hba]
          rw [ih bs]
          constructor
          · intro h hlt
            cases hlt with
            | head _ _ h' => exact hba h'
            | tail _ _ h' => exact h h'
          · intro h hlt
            exact h (List.lt.tail hba hab hlt)

theorem lexLe_iff_le (a b : String) : lexLe a.data b.data = true ↔ a ≤ b := by
  rw [lexLe_iff_not_lt]
  rw [show (a ≤ b) ↔ ¬ b < a from (not_lt (a := b) (b := a)).symm]
  constructor
  · intro h hb
    exact h ((List.lt_iff_lex_lt b.data a.data).mpr (String.lt_iff_toList_lt.mp hb))
  · intro h hb
    exact h (String.lt_iff_toList_lt.mpr ((List.lt_iff_lex_lt b.data a.data).mp hb))

instance : IsTotal String (fun a b : String => lexLe a.data b.data = true) := by
  constructor
  intro a b
  rcases le_total a b with h | h
  · exact Or.inl ((lexLe_iff_le a b).mpr h)
  · exact Or.inr ((lexLe_iff_le b a).mpr h)

instance : IsTrans String (fun a b : String => lexLe a.data b.data = true) := by
  constructor
  intro a b c hab hbc
  exact (lexLe_iff_le a c).mpr
    (le_trans ((lexLe_iff_le a b).mp hab) ((lexLe_iff_le b c).mp hbc))

theorem sortStrings_perm (l : List String) : List.Perm (sortStrings l) l :=
  List.perm_insertionSort _ l

theorem sortStrings_sorted (l : List String) :
    (sortStrings l).Sorted (fun a b : String => a ≤ b) := by
  have h := List.sorted_insertionSort
    (fun a b : String => lexLe a.data b.data = true) l
  exact h.imp (fun hab => (lexLe_iff_le _ _).mp hab)

theorem mem_sortStrings (l : List String) (a : String) :
    a ∈ sortStrings l ↔ a ∈ l :=
  (sortStrings_perm l).mem_iff

theorem sortStrings_nodup (l : List String) (h : l.Nodup) :
    (sortStrings l).Nodup :=
  ((sortStrings_perm l).nodup_iff).mpr h

/-! ### Emitter characterizations -/

theorem emitGuid_elim {year : String} {li ii mi : Idx} {g : String}
    {rec : MasterRow} (h : emitGuid year li ii mi g = some rec) :
    ∃ lt tt gr nt gt,
      sum_field (idxGet ii g) lineAmtCands = some lt
      ∧ sum_field (idxGet ii g) taxAmtCands = some tt
      ∧ sum_field (lrowsOf li ii g) grossCands = some gr
      ∧ sum_field (lrowsOf li ii g) netCands = some nt
      ∧ sum_field (lrowsOf li ii g) gstCands = some gt
      ∧ rec =
        { Year := year
          Invoice_GUID := g
          Invoice_Number := invNumOf ii g
          Invoice_Type := norm (rowGet ((idxGet ii g).headD []) "Type")
          Invoice_Date := norm (rowGet ((idxGet ii g).headD []) "Date")
          Invoice_Contact := norm (rowGet ((idxGet ii g).headD []) "Contact")
          Invoice_Description := norm (rowGet ((idxGet ii g).headD []) "Description")
          Invoice_Currency := norm (rowGet ((idxGet ii g).headD []) "Currency")
          Invoice_Line_Count := (idxGet ii g).length
          Invoice_Line_Total := fmt2 lt
          Invoice_Tax_Total := fmt2 tt
          In_Ledger := if (lrowsOf li ii g).isEmpty then "N" else "Y"
          Ledger_Row_Count := (lrowsOf li ii g).length
          Ledger_Gross_AUD := fmt2 gr
          Ledger_Net_AUD := fmt2 nt
          Ledger_GST_AUD := fmt2 gt
          In_Manifest := if (idxGet mi g).isEmpty then "N" else "Y"
          Manifest_Row_Count := (idxGet mi g).length
          PDF_Present := if (pdfPathsOf mi g).isEmpty then "N" else "Y"
          PDF_Count := (pdfPathsOf mi g).length
          PDF_Paths := String.intercalate "; " (pdfPathsOf mi g)
          ledger_gross_dec := gr
          ledger_rows := lrowsOf li ii g } := by
  unfold emitGuid at h
  dsimp only at h
  cases h1 : sum_field (idxGet ii g) lineAmtCands with
  | none => rw [h1] at h; cases h
  | some lt =>
    rw [h1] at h
    cases h2 : sum_field (idxGet ii g) taxAmtCands with
    | none => rw [h2] at h; cases h
    | some tt =>
      rw [h2] at h
      cases h3 : sum_field (if invoice_number_key ((idxGet ii g).headD []) ≠ ""
          then idxGet li (invoice_number_key ((idxGet ii g).headD [])) else [])
          grossCands with
      | none => rw [h3] at h; cases h
      | some gr =>
        rw [h3] at h
        cases h4 : sum_field (if invoice_number_key ((idxGet ii g).headD []) ≠ ""
            then idxGet li (invoice_number_key ((idxGet ii g).headD [])) else [])
            netCands with
        | none => rw [h4] at h; cases h
        | some nt =>
          rw [h4] at h
          cases h5 : sum_field (if invoice_number_key ((idxGet ii g).headD []) ≠ ""
              then idxGet li (invoice_number_key ((idxGet ii g).headD [])) else [])
              gstCands with
          | none => rw [h5] at h; cases h
          | some gt =>
            rw [h5] at h
            cases h
            exact ⟨lt, tt, gr, nt, gt, rfl, rfl, h3, h4, h5, rfl⟩

theorem emitLedgerOnly_elim {year : String} {li : Idx} {k : String}
    {rec : MasterRow} (h : emitLedgerOnly year li k = some rec) :
    ∃ gr nt gt,
      sum_field (idxGet li k) grossCands = some gr
      ∧ sum_field (idxGet li k) netCands = some nt
      ∧ sum_field (idxGet li k) gstCands = some gt
      ∧ rec =
        { Year := year
          Invoice_GUID := ""
          Invoice_Number := k
          Invoice_Type := ""
          Invoice_Date := ""
          Invoice_Contact := norm (rowGet ((idxGet li k).headD []) "Contact")
          Invoice_Description := norm (rowGet ((idxGet li k).headD []) "Description")
          Invoice_Currency := norm (rowGet ((idxGet li k).headD []) "Currency")
          Invoice_Line_Count := 0
          Invoice_Line_Total := "0.00"
          Invoice_Tax_Total := "0.00"
          In_Ledger := "Y"
          Ledger_Row_Count := (idxGet li k).length
          Ledger_Gross_AUD := fmt2 gr
          Ledger_Net_AUD := fmt2 nt
          Ledger_GST_AUD := fmt2 gt
          In_Manifest := "N"
          Manifest_Row_Count := 0
          PDF_Present := "N"
          PDF_Count := 0
          PDF_Paths := ""
          ledger_gross_dec := gr
          ledger_rows := idxGet li k } := by
  unfold emitLedgerOnly at h
  dsimp only at h
  cases h1 : sum_field (idxGet li k) grossCands with
  | none => rw [h1] at h; cases h
  | some gr =>
    rw [h1] at h
    cases h2 : sum_field (idxGet li k) netCands with
    | none => rw [h2] at h; cases h
    | some nt =>
      rw [h2] at h
      cases h3 : sum_field (idxGet li k) gstCands with
      | none => rw [h3] at h; cases h
      | some gt =>
        rw [h3] at h
        cases h
        exact ⟨gr, nt, gt, rfl, rfl, rfl, rfl⟩

/-- The two-pass decomposition of a successful reconciliation. -/
theorem reconcile_elim {year : String} {lr ir mr : List Row}
    {rows : List MasterRow} (h : reconcile year lr ir mr = some rows) :
    ∃ p1 p2,
      mapO (emitGuid year (buildIndex ledger_invoice_key lr)
          (buildIndex invoice_guid_key ir) (buildIndex manifest_guid_key mr))
        (guidKeysOf (buildIndex invoice_guid_key ir)
          (buildIndex manifest_guid_key mr)) = some p1
      ∧ mapO (emitLedgerOnly year (buildIndex ledger_invoice_key lr))
          (ledgerOnlyOf (buildIndex ledger_invoice_key lr)
            (buildIndex invoice_guid_key ir)) = some p2
      ∧ rows = p1 ++ p2 := by
  unfold reconcile at h
  dsimp only at h
  cases h1 : mapO (emitGuid year (buildIndex ledger_invoice_key lr)
      (buildIndex invoice_guid_key ir) (buildIndex manifest_guid_key mr))
      (guidKeysOf (buildIndex invoice_guid_key ir)
        (buildIndex manifest_guid_key mr)) with
  | none => rw [h1] at h; cases h
  | some p1 =>
    rw [h1] at h
    cases h2 : mapO (emitLedgerOnly year (buildIndex ledger_invoice_key lr))
        (ledgerOnlyOf (buildIndex ledger_invoice_key lr)
          (buildIndex invoice_guid_key ir)) with
    | none => rw [h2] at h; cases h
    | some p2 =>
      rw [h2] at h
      cases h
      exact ⟨p1, p2, rfl, rfl, rfl⟩

/-! ### Key-space lemmas -/

theorem mem_guidKeysOf (ii mi : Idx) (g : String) :
    g ∈ guidKeysOf ii mi ↔ g ∈ idxKeys ii ∨ g ∈ idxKeys mi := by
  unfold guidKeysOf
  rw [mem_sortStrings, List.mem_dedup, List.mem_append]

theorem guidKeysOf_nodup (ii mi : Idx) : (guidKeysOf ii mi).Nodup :=
  sortStrings_nodup _ (List.nodup_dedup _)

theorem mem_ledgerOnlyOf (li ii : Idx) (n : String) :
    n ∈ ledgerOnlyOf li ii ↔ n ∈ idxKeys li ∧ n ∉ derivedOf ii := by
  unfold ledgerOnlyOf
  rw [mem_sortStrings, List.mem_filter]
  simp

theorem ledgerOnlyOf_nodup (lr : List Row) (ii : Idx) :
    (ledgerOnlyOf (buildIndex ledger_invoice_key lr) ii).Nodup :=
  sortStrings_nodup _ ((idxKeys_nodup ledger_invoice_key lr).filter _)

theorem idxGet_ne_nil (key : Row → String) (rows : List Row) (g : String)
    (hg : g ∈ idxKeys (buildIndex key rows)) :
    idxGet (buildIndex key rows) g ≠ [] := by
  obtain ⟨hne, r, hr, hkey⟩ := (mem_idxKeys_buildIndex key rows g).mp hg
  rw [idxGet_buildIndex key rows g hne]
  intro hemp
  have : r ∈ List.filter (fun r => decide (key r = g)) rows :=
    List.mem_filter.mpr ⟨hr, by simpa using hkey⟩
  rw [hemp] at this
  cases this

theorem invoice_number_key_nil : invoice_number_key ([] : Row) = "" := by decide

theorem invNumOf_not_mem (ii : Idx) (g : String) (h : g ∉ idxKeys ii) :
    invNumOf ii g = "" := by
  unfold invNumOf
  rw [idxGet_not_mem ii g h]
  exact invoice_number_key_nil

theorem mem_derivedOf (ii : Idx) (k : String) :
    k ∈ derivedOf ii ↔
      ∃ kv ∈ ii, ¬ kv.2.isEmpty ∧ invoice_number_key (kv.2.headD []) = k := by
  unfold derivedOf
  rw [List.mem_filterMap]
  constructor
  · rintro ⟨kv, hkv, hf⟩
    by_cases he : kv.2.isEmpty
    · rw [if_pos he] at hf
      cases hf
    · rw [if_neg he] at hf
      exact ⟨kv, hkv, he, Option.some_injective _ hf⟩
  · rintro ⟨kv, hkv, he, hk⟩
    exact ⟨kv, hkv, by rw [if_neg he, hk]⟩

theorem invNumOf_mem_derivedOf (key : Row → String) (rows : List Row)
    (g : String) (hg : g ∈ idxKeys (buildIndex key rows)) :
    invNumOf (buildIndex key rows) g ∈ derivedOf (buildIndex key rows) := by
  obtain ⟨grp, hgrp⟩ := entry_of_mem_idxKeys _ g hg
  have hget : idxGet (buildIndex key rows) g = grp :=
    idxGet_of_mem_entries _ (g, grp) (idxKeys_nodup key rows) hgrp
  rw [mem_derivedOf]
  refine ⟨(g, grp), hgrp, ?_, ?_⟩
  · have := idxGet_ne_nil key rows g hg
    rw [hget] at this
    simpa [List.isEmpty_iff] using this
  · unfold invNumOf
    rw [hget]

theorem derivedOf_to_invNumOf (key : Row → String) (rows : List Row)
    (k : String) (hk : k ∈ derivedOf (buildIndex key rows)) :
    ∃ g ∈ idxKeys (buildIndex key rows), invNumOf (buildIndex key rows) g = k := by
  obtain ⟨kv, hkv, -, hval⟩ := (mem_derivedOf _ k).mp hk
  refine ⟨kv.1, List.mem_map_of_mem _ hkv, ?_⟩
  unfold invNumOf
  rw [idxGet_of_mem_entries _ kv (idxKeys_nodup key rows) hkv, hval]

theorem guidKey_ne_empty (ir mr : List Row) (g : String)
    (hg : g ∈ guidKeysOf (buildIndex invoice_guid_key ir)
      (buildIndex manifest_guid_key mr)) : g ≠ "" := by
  rcases (mem_guidKeysOf _ _ g).mp hg with h | h
  · exact ((mem_idxKeys_buildIndex _ ir g).mp h).1
  · exact ((mem_idxKeys_buildIndex _ mr g).mp h).1

/-- The Pass-1 records carry exactly the GUID list they were produced
from. -/
theorem mapO_guid_list {year : String} {li ii mi : Idx} {K : List String}
    {p1 : List MasterRow} (h1 : mapO (emitGuid year li ii mi) K = some p1) :
    p1.map (fun x => x.Invoice_GUID) = K := by
  have := mapO_map_eq (fun x : MasterRow => x.Invoice_GUID) id _ _ h1
    (fun a _ b hb => by
      obtain ⟨lt, tt, gr, nt, gt, -, -, -, -, -, hrec⟩ := emitGuid_elim hb
      subst hrec
      rfl)
  simpa using this

/-- The Pass-2 records carry exactly the invoice-number list they were
produced from. -/
theorem mapO_invnum_list {year : String} {li : Idx} {K : List String}
    {p2 : List MasterRow} (h2 : mapO (emitLedgerOnly year li) K = some p2) :
    p2.map (fun x => x.Invoice_Number) = K := by
  have := mapO_map_eq (fun x : MasterRow => x.Invoice_Number) id _ _ h2
    (fun a _ b hb => by
      obtain ⟨gr, nt, gt, -, -, -, hrec⟩ := emitLedgerOnly_elim hb
      subst hrec
      rfl)
  simpa using this

/-- C4: a successful reconciliation emits the GUID-keyed records first, in
ascending (lexicographic, duplicate-free) GUID order, followed by the
ledger-only records in ascending invoice-number order.  The whole pipeline
is a pure function of the three row lists and the year, so two runs on
identical inputs produce this identical row list and hence a byte-identical
CSV rendering. -/
theorem c4_deterministic_order (year : String) (lr ir mr : List Row)
    (rows : List MasterRow) (h : reconcile year lr ir mr = some rows) :
    ∃ p1 p2, rows = p1 ++ p2
      ∧ p1.map (fun x => x.Invoice_GUID)
          = guidKeysOf (buildIndex invoice_guid_key ir) (buildIndex manifest_guid_key mr)
      ∧ p2.map (fun x => x.Invoice_Number)
          = ledgerOnlyOf (buildIndex ledger_invoice_key lr) (buildIndex invoice_guid_key ir)
      ∧ (p1.map (fun x => x.Invoice_GUID)).Sorted (fun a b : String => a ≤ b)
      ∧ (p1.map (fun x => x.Invoice_GUID)).Nodup
      ∧ (p2.map (fun x => x.Invoice_Number)).Sorted (fun a b : String => a ≤ b)
      ∧ (p2.map (fun x => x.Invoice_Number)).Nodup := by
  obtain ⟨p1, p2, h1, h2, hsplit⟩ := reconcile_elim h
  have hm1 := mapO_guid_list h1
  have hm2 := mapO_invnum_list h2
  refine ⟨p1, p2, hsplit, hm1, hm2, ?_, ?_, ?_, ?_⟩
  · rw [hm1]
    exact sortStrings_sorted _
  · rw [hm1]
    exact guidKeysOf_nodup _ _
  · rw [hm2]
    exact sortStrings_sorted _
  · rw [hm2]
    exact ledgerOnlyOf_nodup lr _

/-- Counterexample to C1 as stated: two distinct GUIDs whose invoice groups
both derive invoice number `I1` each fold the same ledger row into their
totals, so the single ledger gross of 1 appears twice in the Master Records
(the one ledger row sits in both records' summed ledger-row lists and the
values total 2 against a ledger-side total of 1) — the ledger row
contributes to two records, not exactly one, and conservation fails. -/
theorem c1_counterexample :
    reconcile "" [[("Invoice Number", "I1"), ("Gross", "1")]]
      [[("Invoice ID", "a"), ("Xero number", "I1")],
       [("Invoice ID", "b"), ("Xero number", "I1")]] []
      = some [c1rec "a", c1rec "b"]
    ∧ (c1rec "a").ledger_rows = [[("Invoice Number", "I1"), ("Gross", "1")]]
    ∧ (c1rec "b").ledger_rows = [[("Invoice Number", "I1"), ("Gross", "1")]]
    ∧ (([c1rec "a", c1rec "b"].map fun x => toQ x.ledger_gross_dec).sum
      ≠ (([[("Invoice Number", "I1"), ("Gross", "1")]].filter
          (fun r => ledger_invoice_key r ≠ "")).map
            (fun r => rowAmountQ r grossCands)).sum) := by
  refine ⟨rfl, rfl, rfl, ?_⟩
  rw [show ([[("Invoice Number", "I1"), ("Gross", "1")]].filter
      (fun r => ledger_invoice_key r ≠ "")) = [[("Invoice Number", "I1"), ("Gross", "1")]]
    from by decide]
  simp only [List.map_cons, List.map_nil, List.sum_cons, List.sum_nil]
  have h1 : toQ (.fin 1 0) = 1 := by
    rw [show toQ (.fin 1 0) = ((1 : ℤ) : ℚ) * pow10 0 from rfl, pow10,
      if_pos (by decide)]
    norm_num
  rw [show rowAmountQ [("Invoice Number", "I1"), ("Gross", "1")] grossCands
      = toQ (.fin 1 0) from rfl,
    show (c1rec "a").ledger_gross_dec = .fin 1 0 from rfl,
    show (c1rec "b").ledger_gross_dec = .fin 1 0 from rfl, h1]
  norm_num

/-- C2: in a successful reconciliation the GUID-keyed records (exactly the
records with a non-empty GUID) carry each key of
invoice-by-GUID ∪ manifest-by-GUID exactly once; the ledger-only records
carry each ledger invoice-number key not derived from the first row of a
GUID-keyed invoice group exactly once; and no GUID or invoice number occurs
in both groups. -/
theorem c2_key_union_partition (year : String) (lr ir mr : List Row)
    (rows : List MasterRow) (h : reconcile year lr ir mr = some rows) :
    ∃ p1 p2, rows = p1 ++ p2
      ∧ (∀ g, g ∈ p1.map (fun x => x.Invoice_GUID) ↔
          (g ∈ idxKeys (buildIndex invoice_guid_key ir)
            ∨ g ∈ idxKeys (buildIndex manifest_guid_key mr)))
      ∧ (p1.map (fun x => x.Invoice_GUID)).Nodup
      ∧ (∀ n, n ∈ p2.map (fun x => x.Invoice_Number) ↔
          (n ∈ idxKeys (buildIndex ledger_invoice_key lr)
            ∧ n ∉ derivedOf (buildIndex invoice_guid_key ir)))
      ∧ (p2.map (fun x => x.Invoice_Number)).Nodup
      ∧ (∀ x ∈ p1, ∀ y ∈ p2,
          x.Invoice_GUID ≠ y.Invoice_GUID ∧ x.Invoice_Number ≠ y.Invoice_Number) := by
  obtain ⟨p1, p2, h1, h2, hsplit⟩ := reconcile_elim h
  have hm1 := mapO_guid_list h1
  have hm2 := mapO_invnum_list h2
  refine ⟨p1, p2, hsplit, ?_, ?_, ?_, ?_, ?_⟩
  · intro g
    rw [hm1, mem_guidKeysOf]
  · rw [hm1]
    exact guidKeysOf_nodup _ _
  · intro n
    rw [hm2, mem_ledgerOnlyOf]
  · rw [hm2]
    exact ledgerOnlyOf_nodup lr _
  · intro x hx y hy
    obtain ⟨g, hg, hfx⟩ := mapO_mem h1 hx
    obtain ⟨n, hn, hfy⟩ := mapO_mem h2 hy
    obtain ⟨ltx, ttx, grx, ntx, gtx, -, -, -, -, -, hxrec⟩ := emitGuid_elim hfx
    obtain ⟨gry, nty, gty, -, -, -, hyrec⟩ := emitLedgerOnly_elim hfy
    have hxg : x.Invoice_GUID = g := by rw [hxrec]
    have hxn : x.Invoice_Number = invNumOf (buildIndex invoice_guid_key ir) g := by
      rw [hxrec]
    have hyg : y.Invoice_GUID = "" := by rw [hyrec]
    have hyn : y.Invoice_Number = n := by rw [hyrec]
    have hnprop := (mem_ledgerOnlyOf _ _ n).mp hn
    have hnne : n ≠ "" := ((mem_idxKeys_buildIndex _ lr n).mp hnprop.1).1
    constructor
    · rw [hxg, hyg]
      exact guidKey_ne_empty ir mr g hg
    · rw [hxn, hyn]
      by_cases hinv : invNumOf (buildIndex invoice_guid_key ir) g = ""
      · rw [hinv]
        exact fun he => hnne he.symm
      · have hgmem : g ∈ idxKeys (buildIndex invoice_guid_key ir) := by
          by_contra hgm
          exact hinv (invNumOf_not_mem _ g hgm)
        intro he
        exact hnprop.2 (he ▸ invNumOf_mem_derivedOf invoice_guid_key ir g hgmem)

/-- Witness for C4 at a concrete run: one invoice GUID (`G1`, lowercased to
`g1`) and one unmatched ledger invoice number (`INV-2`); the output is the
GUID record followed by the ledger-only record. -/
theorem c4_deterministic_order_witness :
    ∃ p1 p2 rows,
      reconcile "Y" [[("Invoice Number", "INV-2")]]
        [[("Invoice ID", "G1"), ("Xero number", "X")]] [] = some rows
      ∧ rows = p1 ++ p2
      ∧ p1.map (fun x => x.Invoice_GUID) = ["g1"]
      ∧ p2.map (fun x => x.Invoice_Number) = ["INV-2"] := by
  have hs : (reconcile "Y" [[("Invoice Number", "INV-2")]]
      [[("Invoice ID", "G1"), ("Xero number", "X")]] []).isSome = true := rfl
  cases hrec : reconcile "Y" [[("Invoice Number", "INV-2")]]
      [[("Invoice ID", "G1"), ("Xero number", "X")]] [] with
  | none => rw [hrec] at hs; cases hs
  | some rows =>
    obtain ⟨p1, p2, hsplit, hm1, hm2, -, -, -, -⟩ :=
      c4_deterministic_order "Y" _ _ _ rows hrec
    refine ⟨p1, p2, rows, rfl, hsplit, ?_, ?_⟩
    · rw [hm1]
      rfl
    · rw [hm2]
      rfl

/-- Witness for C2 at the same concrete run: the GUID group carries `g1`,
the ledger-only group carries `INV-2`, and the groups share no GUID. -/
theorem c2_key_union_partition_witness :
    ∃ p1 p2 rows,
      reconcile "Y" [[("Invoice Number", "INV-2")]]
        [[("Invoice ID", "G1"), ("Xero number", "X")]] [] = some rows
      ∧ rows = p1 ++ p2
      ∧ "g1" ∈ p1.map (fun x => x.Invoice_GUID)
      ∧ "INV-2" ∈ p2.map (fun x => x.Invoice_Number)
      ∧ (∀ x ∈ p1, ∀ y ∈ p2, x.Invoice_GUID ≠ y.Invoice_GUID) := by
  have hs : (reconcile "Y" [[("Invoice Number", "INV-2")]]
      [[("Invoice ID", "G1"), ("Xero number", "X")]] []).isSome = true := rfl
  cases hrec : reconcile "Y" [[("Invoice Number", "INV-2")]]
      [[("Invoice ID", "G1"), ("Xero number", "X")]] [] with
  | none => rw [hrec] at hs; cases hs
  | some rows =>
    obtain ⟨p1, p2, hsplit, hg, hgn, hn, hnn, hdisj⟩ :=
      c2_key_union_partition "Y" _ _ _ rows hrec
    refine ⟨p1, p2, rows, rfl, hsplit, ?_, ?_, fun x hx y hy => (hdisj x hx y hy).1⟩
    · exact (hg "g1").mpr (Or.inl (by decide))
    · exact (hn "INV-2").mpr ⟨by decide, by decide⟩

theorem sum_field_nil (cands : List String) : sum_field [] cands = some (.fin 0 0) := rfl

theorem fmt2_zero : fmt2 (.fin 0 0) = "0.00" := by decide

/-- C9: a GUID present only in the manifest still yields exactly one Pass-1
Master Record, with every invoice-side field blank or zero, `In_Ledger` `N`
and all ledger totals `0.00`. -/
theorem c9_manifest_only_guid (year : String) (lr ir mr : List Row)
    (rows : List MasterRow) (g : String)
    (h : reconcile year lr ir mr = some rows)
    (hg : g ∈ idxKeys (buildIndex manifest_guid_key mr))
    (hng : g ∉ idxKeys (buildIndex invoice_guid_key ir)) :
    ∃ rec, rows.filter (fun x => x.Invoice_GUID = g) = [rec]
      ∧ rec.Invoice_Number = "" ∧ rec.Invoice_Type = "" ∧ rec.Invoice_Date = ""
      ∧ rec.Invoice_Contact = "" ∧ rec.Invoice_Description = ""
      ∧ rec.Invoice_Currency = "" ∧ rec.Invoice_Line_Count = 0
      ∧ rec.Invoice_Line_Total = "0.00" ∧ rec.Invoice_Tax_Total = "0.00"
      ∧ rec.In_Ledger = "N" ∧ rec.Ledger_Row_Count = 0
      ∧ rec.Ledger_Gross_AUD = "0.00" ∧ rec.Ledger_Net_AUD = "0.00"
      ∧ rec.Ledger_GST_AUD = "0.00" := by
  obtain ⟨p1, p2, h1, h2, hsplit⟩ := reconcile_elim h
  have hgne : g ≠ "" := ((mem_idxKeys_buildIndex _ mr g).mp hg).1
  have hgk : g ∈ guidKeysOf (buildIndex invoice_guid_key ir)
      (buildIndex manifest_guid_key mr) := (mem_guidKeysOf _ _ g).mpr (Or.inr hg)
  obtain ⟨rec, hfil, hfg⟩ := @mapO_filter_key String MasterRow _
    (emitGuid year (buildIndex ledger_invoice_key lr)
      (buildIndex invoice_guid_key ir) (buildIndex manifest_guid_key mr))
    (fun x : MasterRow => x.Invoice_GUID)
    (fun a b hb => by
      obtain ⟨lt, tt, gr, nt, gt, -, -, -, -, -, hrec⟩ := emitGuid_elim hb
      subst hrec
      rfl)
    _ _ h1 (guidKeysOf_nodup _ _) _ hgk
  have hp2 : p2.filter (fun x => x.Invoice_GUID = g) = [] := by
    rw [List.filter_eq_nil_iff]
    intro y hy
    obtain ⟨n, hn, hfy⟩ := mapO_mem h2 hy
    obtain ⟨gry, nty, gty, -, -, -, hyrec⟩ := emitLedgerOnly_elim hfy
    subst hyrec
    simpa using fun he => hgne he.symm
  have hfilter : rows.filter (fun x => x.Invoice_GUID = g) = [rec] := by
    rw [hsplit, List.filter_append, hfil, hp2, List.append_nil]
  obtain ⟨lt, tt, gr, nt, gt, hlt, htt, hgr, hnt, hgt, hrec⟩ := emitGuid_elim hfg
  have hempty : idxGet (buildIndex invoice_guid_key ir) g = [] :=
    idxGet_not_mem _ g hng
  have hinv : invNumOf (buildIndex invoice_guid_key ir) g = "" :=
    invNumOf_not_mem _ g hng
  have hlrows : lrowsOf (buildIndex ledger_invoice_key lr)
      (buildIndex invoice_guid_key ir) g = [] := by
    unfold lrowsOf
    rw [hinv]
    simp
  have hlt0 : lt = .fin 0 0 := by
    rw [hempty, sum_field_nil] at hlt
    exact (Option.some_injective _ hlt).symm
  have htt0 : tt = .fin 0 0 := by
    rw [hempty, sum_field_nil] at htt
    exact (Option.some_injective _ htt).symm
  have hgr0 : gr = .fin 0 0 := by
    rw [hlrows, sum_field_nil] at hgr
    exact (Option.some_injective _ hgr).symm
  have hnt0 : nt = .fin 0 0 := by
    rw [hlrows, sum_field_nil] at hnt
    exact (Option.some_injective _ hnt).symm
  have hgt0 : gt = .fin 0 0 := by
    rw [hlrows, sum_field_nil] at hgt
    exact (Option.some_injective _ hgt).symm
  subst hrec
  subst hlt0 htt0 hgr0 hnt0 hgt0
  refine ⟨_, hfilter, ?_, ?_, ?_, ?_, ?_, ?_, ?_, ?_, ?_, ?_, ?_, ?_, ?_, ?_⟩ <;>
    dsimp only
  · exact hinv
  · rw [hempty]
    rfl
  · rw [hempty]
    rfl
  · rw [hempty]
    rfl
  · rw [hempty]
    rfl
  · rw [hempty]
    rfl
  · rw [hempty]
    rfl
  · exact fmt2_zero
  · exact fmt2_zero
  · rw [hlrows]
    rfl
  · rw [hlrows]
    rfl
  · exact fmt2_zero
  · exact fmt2_zero
  · exact fmt2_zero

/-- Witness for C9 at a concrete run: GUID `G2` (lowercased `g2`) appears
only in the manifest; its record is unique with blank invoice side and `N`
ledger presence. -/
theorem c9_manifest_only_guid_witness :
    ∃ rows rec,
      reconcile "" [] [] [[("Invoice ID", "G2")]] = some rows
      ∧ rows.filter (fun x => x.Invoice_GUID = "g2") = [rec]
      ∧ rec.Invoice_Number = "" ∧ rec.In_Ledger = "N"
      ∧ rec.Ledger_Gross_AUD = "0.00" := by
  have hs : (reconcile "" [] [] [[("Invoice ID", "G2")]]).isSome = true := rfl
  cases hrec : reconcile "" [] [] [[("Invoice ID", "G2")]] with
  | none => rw [hrec] at hs; cases hs
  | some rows =>
    obtain ⟨rec, hfil, hn, -, -, -, -, -, -, -, -, hl, -, hgross, -, -⟩ :=
      c9_manifest_only_guid "" [] [] _ rows "g2" hrec (by decide) (by decide)
    exact ⟨rows, rec, rfl, hfil, hn, hl, hgross⟩

/-- The membership characterization of a GUID's deduplicated PDF-path
list. -/
theorem mem_pdfPathsOf (mi : Idx) (g : String) (x : String) :
    x ∈ pdfPathsOf mi g ↔
      (∃ r ∈ idxGet mi g, manifest_pdf_path r = x) ∧ x ≠ "" := by
  unfold pdfPathsOf
  rw [mem_sortStrings, List.mem_dedup, List.mem_filter]
  simp

/-- C10: for every GUID-keyed Master Record, `PDF_Present` is `Y` exactly
when some manifest row of the GUID has a non-empty normalized PDF path,
`PDF_Count` counts the distinct such paths and never exceeds
`Manifest_Row_Count`; and a record can have `In_Manifest` `Y` with
`PDF_Present` `N` and `PDF_Count` 0 (manifest rows without a path). -/
theorem c10_pdf_invariants (year : String) (lr ir mr : List Row)
    (rows : List MasterRow) (rec : MasterRow)
    (h : reconcile year lr ir mr = some rows) (hrec : rec ∈ rows)
    (hguid : rec.Invoice_GUID ≠ "") :
    (rec.PDF_Present = "Y" ↔
      ∃ r ∈ idxGet (buildIndex manifest_guid_key mr) rec.Invoice_GUID,
        manifest_pdf_path r ≠ "")
    ∧ rec.PDF_Count
        = ((((idxGet (buildIndex manifest_guid_key mr) rec.Invoice_GUID).map
            manifest_pdf_path).filter (· ≠ "")).dedup).length
    ∧ rec.PDF_Count ≤ rec.Manifest_Row_Count
    ∧ (∃ rows' rec', reconcile "" [] [] [[("Invoice ID", "G3")]] = some rows'
        ∧ rec' ∈ rows' ∧ rec'.In_Manifest = "Y" ∧ rec'.PDF_Present = "N"
        ∧ rec'.PDF_Count = 0) := by
  obtain ⟨p1, p2, h1, h2, hsplit⟩ := reconcile_elim h
  rw [hsplit] at hrec
  rcases List.mem_append.mp hrec with hp1 | hp2
  · obtain ⟨g, hgmem, hf⟩ := mapO_mem h1 hp1
    obtain ⟨lt, tt, gr, nt, gt, -, -, -, -, -, hr⟩ := emitGuid_elim hf
    subst hr
    dsimp only
    refine ⟨?_, ?_, ?_, ?_⟩
    · by_cases hemp : (pdfPathsOf (buildIndex manifest_guid_key mr) g).isEmpty = true
      · rw [if_pos hemp]
        have hnil := List.isEmpty_iff.mp hemp
        constructor
        · intro hcon
          exact absurd hcon (by decide)
        · rintro ⟨r, hrm, hrp⟩
          have : manifest_pdf_path r ∈ pdfPathsOf (buildIndex manifest_guid_key mr) g :=
            (mem_pdfPathsOf _ g _).mpr ⟨⟨r, hrm, rfl⟩, hrp⟩
          rw [hnil] at this
          cases this
      · rw [if_neg hemp]
        have hne : pdfPathsOf (buildIndex manifest_guid_key mr) g ≠ [] :=
          fun he => hemp (by rw [he]; rfl)
        simp only [true_iff]
        obtain ⟨x, hx⟩ := List.exists_mem_of_ne_nil _ hne
        obtain ⟨⟨r, hrm, hrx⟩, hxne⟩ := (mem_pdfPathsOf _ g x).mp hx
        exact ⟨r, hrm, by rw [hrx]; exact hxne⟩
    · exact ((sortStrings_perm _).length_eq)
    · calc (pdfPathsOf (buildIndex manifest_guid_key mr) g).length
          = ((((idxGet (buildIndex manifest_guid_key mr) g).map
              manifest_pdf_path).filter (· ≠ "")).dedup).length :=
            (sortStrings_perm _).length_eq
        _ ≤ (((idxGet (buildIndex manifest_guid_key mr) g).map
              manifest_pdf_path).filter (· ≠ "")).length :=
            (List.dedup_sublist _).length_le
        _ ≤ ((idxGet (buildIndex manifest_guid_key mr) g).map
              manifest_pdf_path).length := List.length_filter_le _ _
        _ = (idxGet (buildIndex manifest_guid_key mr) g).length :=
            List.length_map _ _
    · have hs : (reconcile "" [] [] [[("Invoice ID", "G3")]]).isSome = true := rfl
      cases hrec3 : reconcile "" [] [] [[("Invoice ID", "G3")]] with
      | none => rw [hrec3] at hs; cases hs
      | some rows3 =>
        obtain ⟨q1, q2, hq1, hq2, hsplit3⟩ := reconcile_elim hrec3
        have hmem3 : "g3" ∈ guidKeysOf
            (buildIndex invoice_guid_key [])
            (buildIndex manifest_guid_key [[("Invoice ID", "G3")]]) := by decide
        obtain ⟨rec3, hrec3m, hf3⟩ := mapO_mem_of_mem hq1 hmem3
        obtain ⟨lt3, tt3, gr3, nt3, gt3, -, -, -, -, -, hr3⟩ := emitGuid_elim hf3
        refine ⟨rows3, rec3, rfl, ?_, ?_, ?_, ?_⟩
        · rw [hsplit3]
          exact List.mem_append.mpr (Or.inl hrec3m)
        · rw [hr3]
          rfl
        · rw [hr3]
          rfl
        · rw [hr3]
          rfl
  · obtain ⟨n, hn, hfy⟩ := mapO_mem h2 hp2
    obtain ⟨gry, nty, gty, -, -, -, hyrec⟩ := emitLedgerOnly_elim hfy
    subst hyrec
    exact absurd rfl hguid

/-- Witness for C10 at a concrete run: two manifest rows under `G4` with the
same PDF path give `PDF_Count = 1` (distinct paths) against
`Manifest_Row_Count = 2`. -/
theorem c10_pdf_invariants_witness :
    ∃ rows rec,
      reconcile "" [] [] [[("Invoice ID", "G4"), ("PDF_Path", "a.pdf")],
        [("Invoice ID", "G4"), ("PDF_Path", "a.pdf")]] = some rows
      ∧ rec ∈ rows ∧ rec.Invoice_GUID = "g4"
      ∧ (rec.PDF_Present = "Y" ↔
          ∃ r ∈ idxGet (buildIndex manifest_guid_key
            [[("Invoice ID", "G4"), ("PDF_Path", "a.pdf")],
             [("Invoice ID", "G4"), ("PDF_Path", "a.pdf")]]) rec.Invoice_GUID,
            manifest_pdf_path r ≠ "")
      ∧ rec.PDF_Count ≤ rec.Manifest_Row_Count
      ∧ rec.PDF_Count = 1 ∧ rec.Manifest_Row_Count = 2 := by
  have hs : (reconcile "" [] [] [[("Invoice ID", "G4"), ("PDF_Path", "a.pdf")],
      [("Invoice ID", "G4"), ("PDF_Path", "a.pdf")]]).isSome = true := rfl
  cases hrec4 : reconcile "" [] [] [[("Invoice ID", "G4"), ("PDF_Path", "a.pdf")],
      [("Invoice ID", "G4"), ("PDF_Path", "a.pdf")]] with
  | none => rw [hrec4] at hs; cases hs
  | some rows =>
    obtain ⟨q1, q2, hq1, hq2, hsplit⟩ := reconcile_elim hrec4
    have hm : "g4" ∈ guidKeysOf (buildIndex invoice_guid_key [])
        (buildIndex manifest_guid_key [[("Invoice ID", "G4"), ("PDF_Path", "a.pdf")],
          [("Invoice ID", "G4"), ("PDF_Path", "a.pdf")]]) := by decide
    obtain ⟨rec, hrecm, hf⟩ := mapO_mem_of_mem hq1 hm
    obtain ⟨lt, tt, gr, nt, gt, -, -, -, -, -, hr⟩ := emitGuid_elim hf
    have hmem : rec ∈ rows := hsplit ▸ List.mem_append.mpr (Or.inl hrecm)
    have hg : rec.Invoice_GUID = "g4" := by rw [hr]
    have hcon := c10_pdf_invariants "" [] [] _ rows rec hrec4 hmem
      (by rw [hg]; decide)
    refine ⟨rows, rec, rfl, hmem, hg, hcon.1, hcon.2.2.1, ?_, ?_⟩
    · rw [hr]
      rfl
    · rw [hr]
      rfl

/-! ### Ledger-bucket partition lemmas -/

theorem flatten_map_nil {α : Type} (K : List α) :
    (K.map (fun _ => ([] : List Row))).flatten = [] := by
  induction K with
  | nil => rfl
  | cons a t ih => simpa using ih

theorem flatten_map_ite {α : Type} (P : α → Prop) [DecidablePred P]
    (f : α → List Row) (L : List α) :
    (L.map (fun a => if P a then f a else [])).flatten
      = ((L.filter (fun a => decide (P a))).map f).flatten := by
  induction L with
  | nil => rfl
  | cons a t ih =>
    by_cases hp : P a
    · rw [List.map_cons, if_pos hp, List.filter_cons_of_pos (by simpa using hp),
        List.map_cons, List.flatten_cons, List.flatten_cons, ih]
    · rw [List.map_cons, if_neg hp, List.filter_cons_of_neg (by simpa using hp),
        List.flatten_cons, List.nil_append, ih]

theorem flatten_map_eq_filter_of_nil (f : String → List Row) (P : String → Prop)
    [DecidablePred P] :
    ∀ L : List String, (∀ k ∈ L, ¬ P k → f k = []) →
      (L.map f).flatten = ((L.filter (fun k => decide (P k))).map f).flatten := by
  intro L
  induction L with
  | nil => intro _; rfl
  | cons k t ih =>
    intro h0
    by_cases hp : P k
    · rw [List.map_cons, List.filter_cons_of_pos (by simpa using hp),
        List.map_cons, List.flatten_cons, List.flatten_cons,
        ih (fun x hx => h0 x (List.mem_cons_of_mem k hx))]
    · rw [List.map_cons, List.filter_cons_of_neg (by simpa using hp),
        List.flatten_cons, h0 k (List.mem_cons_self k t) hp, List.nil_append,
        ih (fun x hx => h0 x (List.mem_cons_of_mem k hx))]

/-- Splitting a row list into per-key filter buckets over a duplicate-free
key list covering every non-empty key loses and duplicates nothing: the
concatenated buckets are a permutation of the rows with a non-empty key. -/
theorem flatten_filter_key_partition (keyf : Row → String) (K : List String)
    (hnd : K.Nodup) (hne : ∀ k ∈ K, k ≠ "") :
    ∀ L : List Row, (∀ r ∈ L, keyf r ≠ "" → keyf r ∈ K) →
      ((K.map (fun k => L.filter (fun r => keyf r = k))).flatten).Perm
        (L.filter (fun r => keyf r ≠ "")) := by
  intro L
  induction L with
  | nil =>
    intro _
    rw [show (K.map (fun k => ([] : List Row).filter (fun r => keyf r = k)))
        = K.map (fun _ => ([] : List Row)) from rfl, flatten_map_nil]
    exact List.Perm.refl _
  | cons r t ih =>
    intro hcov
    by_cases hk : keyf r = ""
    · have hbuck : K.map (fun k => (r :: t).filter (fun x => keyf x = k))
          = K.map (fun k => t.filter (fun x => keyf x = k)) := by
        refine List.map_congr_left ?_
        intro k hkK
        rw [List.filter_cons_of_neg
          (by simpa using fun he : keyf r = k => hne k hkK (he.symm.trans hk))]
      rw [hbuck, List.filter_cons_of_neg (by simpa using hk)]
      exact ih (fun x hx => hcov x (List.mem_cons_of_mem r hx))
    · have hmem : keyf r ∈ K := hcov r (List.mem_cons_self r t) hk
      obtain ⟨K1, K2, hK⟩ := List.append_of_mem hmem
      subst hK
      have hnd' := List.nodup_append.mp hnd
      have hnotin1 : keyf r ∉ K1 :=
        fun hin => (hnd'.2.2 hin) (List.mem_cons_self _ _)
      have hnotin2 : keyf r ∉ K2 := (List.nodup_cons.mp hnd'.2.1).1
      have hb1 : K1.map (fun k => (r :: t).filter (fun x => keyf x = k))
          = K1.map (fun k => t.filter (fun x => keyf x = k)) := by
        refine List.map_congr_left ?_
        intro k hkK
        rw [List.filter_cons_of_neg
          (by simpa using fun he : keyf r = k => hnotin1 (he ▸ hkK))]
      have hb2 : K2.map (fun k => (r :: t).filter (fun x => keyf x = k))
          = K2.map (fun k => t.filter (fun x => keyf x = k)) := by
        refine List.map_congr_left ?_
        intro k hkK
        rw [List.filter_cons_of_neg
          (by simpa using fun he : keyf r = k => hnotin2 (he ▸ hkK))]
      rw [List.map_append, List.map_cons, List.flatten_append, List.flatten_cons,
        hb1, hb2, List.filter_cons_of_pos (by simp),
        List.filter_cons_of_pos (by simpa using hk), List.cons_append]
      refine List.Perm.trans List.perm_middle (List.Perm.cons r ?_)
      have hexp : ((K1 ++ keyf r :: K2).map
            (fun k => t.filter (fun x => keyf x = k))).flatten
          = (K1.map (fun k => t.filter (fun x => keyf x = k))).flatten
            ++ (t.filter (fun x => keyf x = keyf r)
              ++ (K2.map (fun k => t.filter (fun x => keyf x = k))).flatten) := by
        rw [List.map_append, List.map_cons, List.flatten_append, List.flatten_cons]
      rw [← hexp]
      exact ih (fun x hx => hcov x (List.mem_cons_of_mem r hx))

/-- C1 amended: in a successful run in which no two distinct GUID-keyed
invoice groups derive the same non-empty invoice number from their first
rows, the ledger-row lists summed by the Master Records partition (up to
order) the ledger rows with a non-empty invoice-number key — each such
ledger row contributes to the ledger totals of exactly one Master Record —
and each record's `Ledger_Gross_AUD` is the default-context decimal sum of
exactly its own list.  Without the uniqueness hypothesis a ledger row is
folded into every GUID group deriving its invoice number (see the
counterexample); the claim's exact rational sum equation additionally fails
in general because context addition rounds each sum to 28 significant
digits. -/
theorem c1_bucket_partition (year : String) (lr ir mr : List Row)
    (rows : List MasterRow) (h : reconcile year lr ir mr = some rows)
    (hinj : ∀ g1 ∈ idxKeys (buildIndex invoice_guid_key ir),
      ∀ g2 ∈ idxKeys (buildIndex invoice_guid_key ir),
        invNumOf (buildIndex invoice_guid_key ir) g1
          = invNumOf (buildIndex invoice_guid_key ir) g2 →
        invNumOf (buildIndex invoice_guid_key ir) g1 ≠ "" → g1 = g2) :
    ((rows.map (fun x => x.ledger_rows)).flatten).Perm
      (lr.filter (fun r => ledger_invoice_key r ≠ ""))
    ∧ ∀ x ∈ rows, ∃ gr, sum_field x.ledger_rows grossCands = some gr
        ∧ x.Ledger_Gross_AUD = fmt2 gr ∧ x.ledger_gross_dec = gr := by
  obtain ⟨p1, p2, h1, h2, hsplit⟩ := reconcile_elim h
  constructor
  · have hp1 : p1.map (fun x => x.ledger_rows)
        = (guidKeysOf (buildIndex invoice_guid_key ir)
            (buildIndex manifest_guid_key mr)).map
          (fun g => lrowsOf (buildIndex ledger_invoice_key lr)
            (buildIndex invoice_guid_key ir) g) :=
      mapO_map_eq _ _ _ _ h1 (fun g _ b hb => by
        obtain ⟨lt, tt, gr, nt, gt, -, -, -, -, -, hrec⟩ := emitGuid_elim hb
        subst hrec
        rfl)
    have hp2 : p2.map (fun x => x.ledger_rows)
        = (ledgerOnlyOf (buildIndex ledger_invoice_key lr)
            (buildIndex invoice_guid_key ir)).map
          (fun n => idxGet (buildIndex ledger_invoice_key lr) n) :=
      mapO_map_eq _ _ _ _ h2 (fun n _ b hb => by
        obtain ⟨gr, nt, gt, -, -, -, hrec⟩ := emitLedgerOnly_elim hb
        subst hrec
        rfl)
    rw [hsplit, List.map_append, List.flatten_append, hp1, hp2]
    rw [show ((guidKeysOf (buildIndex invoice_guid_key ir)
          (buildIndex manifest_guid_key mr)).map
        (fun g => lrowsOf (buildIndex ledger_invoice_key lr)
          (buildIndex invoice_guid_key ir) g))
        = (guidKeysOf (buildIndex invoice_guid_key ir)
            (buildIndex manifest_guid_key mr)).map
          (fun g => if invNumOf (buildIndex invoice_guid_key ir) g ≠ ""
            then idxGet (buildIndex ledger_invoice_key lr)
              (invNumOf (buildIndex invoice_guid_key ir) g) else [])
      from rfl]
    rw [flatten_map_ite
      (fun g => invNumOf (buildIndex invoice_guid_key ir) g ≠ "")
      (fun g => idxGet (buildIndex ledger_invoice_key lr)
        (invNumOf (buildIndex invoice_guid_key ir) g))
      (guidKeysOf (buildIndex invoice_guid_key ir)
        (buildIndex manifest_guid_key mr))]
    rw [show (((guidKeysOf (buildIndex invoice_guid_key ir)
          (buildIndex manifest_guid_key mr)).filter
        (fun g => decide (invNumOf (buildIndex invoice_guid_key ir) g ≠ ""))).map
          (fun g => idxGet (buildIndex ledger_invoice_key lr)
            (invNumOf (buildIndex invoice_guid_key ir) g)))
        = ((((guidKeysOf (buildIndex invoice_guid_key ir)
            (buildIndex manifest_guid_key mr)).filter
          (fun g => decide (invNumOf (buildIndex invoice_guid_key ir) g ≠ ""))).map
            (fun g => invNumOf (buildIndex invoice_guid_key ir) g)).map
          (fun k => idxGet (buildIndex ledger_invoice_key lr) k))
      from by rw [List.map_map]; rfl]
    rw [flatten_map_eq_filter_of_nil
      (fun k => idxGet (buildIndex ledger_invoice_key lr) k)
      (fun k => k ∈ idxKeys (buildIndex ledger_invoice_key lr)) _
      (fun k _ hcon => idxGet_not_mem (buildIndex ledger_invoice_key lr) k hcon)]
    rw [← List.flatten_append, ← List.map_append]
    have hMnodup : ((((guidKeysOf (buildIndex invoice_guid_key ir)
        (buildIndex manifest_guid_key mr)).filter
      (fun g => decide (invNumOf (buildIndex invoice_guid_key ir) g ≠ ""))).map
        (fun g => invNumOf (buildIndex invoice_guid_key ir) g))).Nodup := by
      refine List.Nodup.map_on ?_ ((guidKeysOf_nodup _ _).filter _)
      intro g1 hg1 g2 hg2 he
      have h1m := List.mem_filter.mp hg1
      have h2m := List.mem_filter.mp hg2
      have hne1 : invNumOf (buildIndex invoice_guid_key ir) g1 ≠ "" := by
        simpa using h1m.2
      have hne2 : invNumOf (buildIndex invoice_guid_key ir) g2 ≠ "" := by
        simpa using h2m.2
      have hk1 : g1 ∈ idxKeys (buildIndex invoice_guid_key ir) := by
        by_contra hcon
        exact hne1 (invNumOf_not_mem _ g1 hcon)
      have hk2 : g2 ∈ idxKeys (buildIndex invoice_guid_key ir) := by
        by_contra hcon
        exact hne2 (invNumOf_not_mem _ g2 hcon)
      exact hinj g1 hk1 g2 hk2 he hne1
    have hMmem : ∀ k, k ∈ (((guidKeysOf (buildIndex invoice_guid_key ir)
        (buildIndex manifest_guid_key mr)).filter
      (fun g => decide (invNumOf (buildIndex invoice_guid_key ir) g ≠ ""))).map
        (fun g => invNumOf (buildIndex invoice_guid_key ir) g))
        ↔ (k ≠ "" ∧ k ∈ derivedOf (buildIndex invoice_guid_key ir)) := by
      intro k
      constructor
      · intro hk
        obtain ⟨g, hgf, hkv⟩ := List.mem_map.mp hk
        have hgm := List.mem_filter.mp hgf
        have hne : invNumOf (buildIndex invoice_guid_key ir) g ≠ "" := by
          simpa using hgm.2
        have hk2 : g ∈ idxKeys (buildIndex invoice_guid_key ir) := by
          by_contra hcon
          exact hne (invNumOf_not_mem _ g hcon)
        exact ⟨hkv ▸ hne, hkv ▸ invNumOf_mem_derivedOf invoice_guid_key ir g hk2⟩
      · rintro ⟨hne, hk⟩
        obtain ⟨g, hgk, hgv⟩ := derivedOf_to_invNumOf invoice_guid_key ir k hk
        refine List.mem_map.mpr ⟨g, List.mem_filter.mpr ⟨?_, ?_⟩, hgv⟩
        · exact (mem_guidKeysOf _ _ g).mpr (Or.inl hgk)
        · simpa using hgv ▸ hne
    have hperm : (((((guidKeysOf (buildIndex invoice_guid_key ir)
          (buildIndex manifest_guid_key mr)).filter
        (fun g => decide (invNumOf (buildIndex invoice_guid_key ir) g ≠ ""))).map
          (fun g => invNumOf (buildIndex invoice_guid_key ir) g)).filter
        (fun k => decide (k ∈ idxKeys (buildIndex ledger_invoice_key lr))))
        ++ ledgerOnlyOf (buildIndex ledger_invoice_key lr)
            (buildIndex invoice_guid_key ir)).Perm
        (idxKeys (buildIndex ledger_invoice_key lr)) := by
      refine (List.perm_ext_iff_of_nodup ?_
        (idxKeys_nodup ledger_invoice_key lr)).mpr ?_
      · refine List.Nodup.append (hMnodup.filter _)
          (ledgerOnlyOf_nodup lr (buildIndex invoice_guid_key ir)) ?_
        intro k hk1 hk2
        have hkd : k ∈ derivedOf (buildIndex invoice_guid_key ir) :=
          ((hMmem k).mp (List.mem_filter.mp hk1).1).2
        exact ((mem_ledgerOnlyOf _ _ k).mp hk2).2 hkd
      · intro k
        rw [List.mem_append, List.mem_filter, mem_ledgerOnlyOf]
        constructor
        · rintro (⟨_, hkL⟩ | ⟨hkL, -⟩)
          · simpa using hkL
          · exact hkL
        · intro hkL
          by_cases hkd : k ∈ derivedOf (buildIndex invoice_guid_key ir)
          · refine Or.inl ⟨(hMmem k).mpr
              ⟨((mem_idxKeys_buildIndex ledger_invoice_key lr k).mp hkL).1, hkd⟩,
              by simpa using hkL⟩
          · exact Or.inr ⟨hkL, hkd⟩
    have hflat := hperm.flatMap_right
      (fun k => idxGet (buildIndex ledger_invoice_key lr) k)
    rw [List.flatMap_def, List.flatMap_def] at hflat
    refine List.Perm.trans hflat ?_
    rw [show (idxKeys (buildIndex ledger_invoice_key lr)).map
          (fun k => idxGet (buildIndex ledger_invoice_key lr) k)
        = (idxKeys (buildIndex ledger_invoice_key lr)).map
          (fun k => lr.filter (fun r => ledger_invoice_key r = k))
      from List.map_congr_left (fun k hk => idxGet_buildIndex ledger_invoice_key
        lr k ((mem_idxKeys_buildIndex ledger_invoice_key lr k).mp hk).1)]
    exact flatten_filter_key_partition ledger_invoice_key
      (idxKeys (buildIndex ledger_invoice_key lr))
      (idxKeys_nodup ledger_invoice_key lr)
      (fun k hk => ((mem_idxKeys_buildIndex ledger_invoice_key lr k).mp hk).1)
      lr
      (fun r hr hner => (mem_idxKeys_buildIndex ledger_invoice_key lr _).mpr
        ⟨hner, r, hr, rfl⟩)
  · intro x hx
    rw [hsplit] at hx
    rcases List.mem_append.mp hx with hx1 | hx2
    · obtain ⟨g, -, hf⟩ := mapO_mem h1 hx1
      obtain ⟨lt, tt, gr, nt, gt, -, -, h3, -, -, hrec⟩ := emitGuid_elim hf
      subst hrec
      exact ⟨gr, h3, rfl, rfl⟩
    · obtain ⟨n, -, hf⟩ := mapO_mem h2 hx2
      obtain ⟨gr, nt, gt, h3, -, -, hrec⟩ := emitLedgerOnly_elim hf
      subst hrec
      exact ⟨gr, h3, rfl, rfl⟩

theorem c1_bucket_partition_witness :
    ∃ rows : List MasterRow,
      reconcile "Y" [[("Invoice Number", "I1"), ("Gross", "1")]]
        [[("Invoice ID", "a"), ("Xero number", "I1")]] [] = some rows
      ∧ ((rows.map (fun x => x.ledger_rows)).flatten).Perm
          ([[("Invoice Number", "I1"), ("Gross", "1")]].filter
            (fun r => ledger_invoice_key r ≠ ""))
      ∧ ∀ x ∈ rows, ∃ gr, sum_field x.ledger_rows grossCands = some gr
          ∧ x.Ledger_Gross_AUD = fmt2 gr ∧ x.ledger_gross_dec = gr := by
  have hs : (reconcile "Y" [[("Invoice Number", "I1"), ("Gross", "1")]]
      [[("Invoice ID", "a"), ("Xero number", "I1")]] []).isSome = true := rfl
  cases hrec : reconcile "Y" [[("Invoice Number", "I1"), ("Gross", "1")]]
      [[("Invoice ID", "a"), ("Xero number", "I1")]] [] with
  | none => rw [hrec] at hs; cases hs
  | some rows =>
    obtain ⟨hperm, htot⟩ := c1_bucket_partition "Y" _ _ _ rows hrec (by decide)
    exact ⟨rows, rfl, hperm, htot⟩

end Xero
